import Mathlib

/-!
# Verification of the widgetic/docs documentation toolchain

Shallow embedding of the four command-line utilities of the repository
(`scripts/sync-openapi.js`, `scripts/check-openapi-drift.js`,
`scripts/generate-code-samples.js`, `scripts/validate-links.js`) together
with proofs about the behaviours described in the specification.

Modelling conventions:
* JSON values are modelled by the mutual inductive `Json`/`JsonList`/`JsonObj`.
  Numeric literals are modelled as integers (the scripts only ever compare,
  copy and template numeric values; fractional doubles are outside the model).
* JavaScript strings are modelled by Lean `String`; the case-conversion
  helpers used by the scripts (`toLowerCase`, `toUpperCase` under `/[A-Z]/`
  regexes) are ASCII, matching the regex character classes in the source.
* The filesystem and the network are modelled as explicit environment
  records (`SourceEnv`, `SyncEnv`, `DriftEnv`, and an existence predicate
  for the link validator): reading a file yields its recorded contents,
  fetching yields the recorded response.
* `JSON.parse`/`JSON.stringify` are modelled by `parseJson`/`serializeJson`
  below; a thrown exception is an `Option.none`/`Except.error` result.
-/

set_option autoImplicit false

namespace WidgeticDocs

mutual

/-- JSON values as produced by `JSON.parse`.  `JsonList` and `JsonObj` are
the spines of arrays and of objects (an object keeps its fields in insertion
order, as JavaScript objects do). -/
inductive Json where
  | null : Json
  | bool : Bool → Json
  | num : Int → Json
  | str : String → Json
  | arr : JsonList → Json
  | obj : JsonObj → Json

inductive JsonList where
  | nil : JsonList
  | cons : Json → JsonList → JsonList

inductive JsonObj where
  | nil : JsonObj
  | cons : String → Json → JsonObj → JsonObj

end

/-- JavaScript truthiness of a JSON value (`0`, `false`, `""` and `null`
are falsy; every object and array is truthy). -/
def Json.truthy : Json → Bool
  | .null => false
  | .bool b => b
  | .num n => n != 0
  | .str s => s != ""
  | .arr _ => true
  | .obj _ => true

/-- Keys of a JSON object spine, in insertion order. -/
def JsonObj.keys : JsonObj → List String
  | .nil => []
  | .cons k _ tl => k :: tl.keys

/-- `Object.keys`-style key list of a JSON value that is an object
(`[]` for every non-object). -/
def Json.keys : Json → List String
  | .obj o => o.keys
  | _ => []

/-- JavaScript property assignment `obj[k] = v`: an existing key keeps its
position and gets the new value, a new key is appended at the end. -/
def JsonObj.insert : JsonObj → String → Json → JsonObj
  | .nil, k, v => .cons k v .nil
  | .cons k' v' tl, k, v =>
    if k' = k then .cons k' v tl else .cons k' v' (tl.insert k v)

/-- Concatenation of two object spines. -/
def JsonObj.cat : JsonObj → JsonObj → JsonObj
  | .nil, o2 => o2
  | .cons k v tl, o2 => .cons k v (tl.cat o2)

/-- The (key, value) member list of an object spine, in spine order. -/
def spineMembers : JsonObj → List (String × Json)
  | .nil => []
  | .cons k v tl => (k, v) :: spineMembers tl

/-- An object spine built verbatim from a member list. -/
def listToSpine : List (String × Json) → JsonObj
  | [] => .nil
  | (k, v) :: tl => .cons k v (listToSpine tl)

/-- The object a JavaScript object initializer builds from a member list:
each member is assigned in order with `obj[k] = v`, so a duplicated key
keeps its first position and its last value — exactly what `JSON.parse`
does with duplicate keys in an object literal. -/
def jsObjOfMembers (ms : List (String × Json)) : JsonObj :=
  ms.foldl (fun o kv => o.insert kv.1 kv.2) .nil

/-- The elements of an array spine as a Lean list. -/
def JsonList.toList : JsonList → List Json
  | .nil => []
  | .cons v tl => v :: tl.toList

def Json.isNull : Json → Bool
  | .null => true
  | _ => false

/-- Property lookup on an object spine (first match; spines produced by the
parser have no duplicate keys). -/
def lookupMember : JsonObj → String → Option Json
  | .nil, _ => none
  | .cons k' v tl, k => if k' = k then some v else lookupMember tl k

/-! ## The model of `JSON.stringify` (compact form, as used by
`normalizeJson` in `scripts/check-openapi-drift.js`). -/

/-- Decimal digit character. -/
def digitChar : Nat → Char
  | 0 => '0' | 1 => '1' | 2 => '2' | 3 => '3' | 4 => '4'
  | 5 => '5' | 6 => '6' | 7 => '7' | 8 => '8' | 9 => '9'
  | _ => '*'

/-- Lower-case hexadecimal digit character (as emitted by `JSON.stringify`
for control-character escapes). -/
def hexChar : Nat → Char
  | 0 => '0' | 1 => '1' | 2 => '2' | 3 => '3' | 4 => '4'
  | 5 => '5' | 6 => '6' | 7 => '7' | 8 => '8' | 9 => '9'
  | 10 => 'a' | 11 => 'b' | 12 => 'c' | 13 => 'd' | 14 => 'e' | 15 => 'f'
  | _ => '*'

/-- Decimal digits of a natural number, most significant first.  Fuel-based
so that the kernel can evaluate it; `serNat n` always supplies enough fuel. -/
def serNatAux : Nat → Nat → List Char → List Char
  | 0, _, acc => acc
  | fuel + 1, n, acc =>
    if n < 10 then digitChar n :: acc
    else serNatAux fuel (n / 10) (digitChar (n % 10) :: acc)

def serNat (n : Nat) : List Char := serNatAux (n + 1) n []

/-- Decimal rendering of an integer, as `String(n)` / `JSON.stringify(n)`
produce it for integral values. -/
def serInt : Int → List Char
  | .ofNat m => serNat m
  | .negSucc m => '-' :: serNat (m + 1)

/-- Escape of one character inside a JSON string literal, exactly as
`JSON.stringify` emits it: `"` and `\` get a backslash, the five named
control characters use their short escapes, the remaining control
characters use `\u00xx`, everything else is emitted verbatim. -/
def escChar (c : Char) : List Char :=
  if c = '"' then ['\\', '"']
  else if c = '\\' then ['\\', '\\']
  else if c = '\n' then ['\\', 'n']
  else if c = '\r' then ['\\', 'r']
  else if c = '\t' then ['\\', 't']
  else if c = '\x08' then ['\\', 'b']
  else if c = '\x0c' then ['\\', 'f']
  else if c.toNat < 32 then
    ['\\', 'u', '0', '0', hexChar (c.toNat / 16), hexChar (c.toNat % 16)]
  else [c]

def escList (l : List Char) : List Char := l.flatMap escChar

/-- Characters of the `null` keyword. -/
def litNull : List Char := ['n', 'u', 'l', 'l']

/-- Characters of the `true` keyword. -/
def litTrue : List Char := ['t', 'r', 'u', 'e']

/-- Characters of the `false` keyword. -/
def litFalse : List Char := ['f', 'a', 'l', 's', 'e']

mutual

/-- `JSON.stringify(v)` (no space argument): compact serialization. -/
def serJ : Json → List Char
  | .null => litNull
  | .bool true => litTrue
  | .bool false => litFalse
  | .num n => serInt n
  | .str s => '"' :: (escList s.data ++ ['"'])
  | .arr xs => '[' :: (serArr xs ++ [']'])
  | .obj xs => '{' :: (serObj xs ++ ['}'])
termination_by structural v => v

def serArr : JsonList → List Char
  | .nil => []
  | .cons v .nil => serJ v
  | .cons v (.cons w tl) => serJ v ++ ',' :: serArr (.cons w tl)
termination_by structural v => v

def serObj : JsonObj → List Char
  | .nil => []
  | .cons k v .nil => '"' :: (escList k.data ++ '"' :: ':' :: serJ v)
  | .cons k v (.cons k' w tl) =>
    ('"' :: (escList k.data ++ '"' :: ':' :: serJ v)) ++ ',' :: serObj (.cons k' w tl)
termination_by structural v => v

end

def serializeJson (v : Json) : String := String.mk (serJ v)

/-! ## The model of `JSON.parse`.

A recursive-descent parser over the character list, with a fuel argument
bounding the nesting/iteration depth (structural recursion keeps every
definition kernel-evaluable).  It accepts the whitespace-insensitive JSON
fragment the scripts rely on; numeric literals are integers. -/

def isWsChar (c : Char) : Bool :=
  c == ' ' || c == '\t' || c == '\n' || c == '\r'

def skipWs (l : List Char) : List Char := l.dropWhile isWsChar

/-- `rest` does not start with a character satisfying `p`. -/
def headNot (p : Char → Bool) : List Char → Prop
  | [] => True
  | c :: _ => p c = false

def isHexChar (c : Char) : Bool :=
  (('0' ≤ c) && (c ≤ '9')) || (('a' ≤ c) && (c ≤ 'f')) || (('A' ≤ c) && (c ≤ 'F'))

def hexVal (c : Char) : Nat :=
  if ('0' ≤ c) && (c ≤ '9') then c.toNat - 48
  else if ('a' ≤ c) && (c ≤ 'f') then c.toNat - 87
  else c.toNat - 55

/-- Numeric value of a list of decimal digit characters. -/
def digitsVal (l : List Char) : Nat :=
  l.foldl (fun a c => 10 * a + (c.toNat - 48)) 0

/-- The input starts with a decimal digit. -/
def startsDigit : List Char → Bool
  | [] => false
  | c :: _ => c.isDigit

/-- 2^53, the largest magnitude at which IEEE doubles are gap-free: up to
here `JSON.parse` reads an integer literal exactly and `JSON.stringify`
prints it back in plain decimal.  Larger literals round, so the model
rejects them rather than misrepresent their value. -/
def maxExactJsonNat : Nat := 9007199254740992

/-- Parse the body of a JSON string literal (the opening quote has already
been consumed); returns the decoded characters and the rest of the input.
Raw control characters are rejected, as `JSON.parse` rejects them. -/
def parseStr : List Char → Option (List Char × List Char)
  | [] => none
  | '"' :: r => some ([], r)
  | '\\' :: r =>
    match r with
    | '"' :: r' => (parseStr r').map (fun p => ('"' :: p.1, p.2))
    | '\\' :: r' => (parseStr r').map (fun p => ('\\' :: p.1, p.2))
    | '/' :: r' => (parseStr r').map (fun p => ('/' :: p.1, p.2))
    | 'n' :: r' => (parseStr r').map (fun p => ('\n' :: p.1, p.2))
    | 'r' :: r' => (parseStr r').map (fun p => ('\r' :: p.1, p.2))
    | 't' :: r' => (parseStr r').map (fun p => ('\t' :: p.1, p.2))
    | 'b' :: r' => (parseStr r').map (fun p => ('\x08' :: p.1, p.2))
    | 'f' :: r' => (parseStr r').map (fun p => ('\x0c' :: p.1, p.2))
    | 'u' :: h1 :: h2 :: h3 :: h4 :: r' =>
      if isHexChar h1 && isHexChar h2 && isHexChar h3 && isHexChar h4 then
        if ((hexVal h1 * 16 + hexVal h2) * 16 + hexVal h3) * 16 + hexVal h4 < 55296 ∨
            57343 < ((hexVal h1 * 16 + hexVal h2) * 16 + hexVal h3) * 16 + hexVal h4 then
          (parseStr r').map (fun p =>
            (Char.ofNat (((hexVal h1 * 16 + hexVal h2) * 16 + hexVal h3) * 16 + hexVal h4)
              :: p.1, p.2))
        else none -- surrogate escapes have no Unicode-scalar reading: outside the model
      else none
    | _ => none
  | c :: r =>
    if c.toNat < 32 then none
    else (parseStr r).map (fun p => (c :: p.1, p.2))

mutual

/-- Parse one JSON value at the head of the input (no leading whitespace). -/
def parseValue : Nat → List Char → Option (Json × List Char)
  | 0, _ => none
  | _ + 1, [] => none
  | fuel + 1, c :: r =>
    if c = 'n' then
      match r with
      | 'u' :: 'l' :: 'l' :: r' => some (.null, r')
      | _ => none
    else if c = 't' then
      match r with
      | 'r' :: 'u' :: 'e' :: r' => some (.bool true, r')
      | _ => none
    else if c = 'f' then
      match r with
      | 'a' :: 'l' :: 's' :: 'e' :: r' => some (.bool false, r')
      | _ => none
    else if c = '"' then
      match parseStr r with
      | some (cs, r') => some (.str (String.mk cs), r')
      | none => none
    else if c = '[' then
      match skipWs r with
      | [] => none
      | d :: r' =>
        if d = ']' then some (.arr .nil, r')
        else
          match parseElems fuel (d :: r') with
          | some (xs, r'') => some (.arr xs, r'')
          | none => none
    else if c = '{' then
      match skipWs r with
      | [] => none
      | d :: r' =>
        if d = '}' then some (.obj .nil, r')
        else
          match parseMembers fuel (d :: r') with
          | some (ms, r'') => some (.obj (jsObjOfMembers ms), r'')
          | none => none
    else if c = '-' then
      match r with
      | [] => none
      | d :: r' =>
        if d.isDigit then
          if d = '0' ∧ startsDigit r' = true then none -- JSON rejects leading zeros
          else if digitsVal ((d :: r').takeWhile Char.isDigit) ≤ maxExactJsonNat then
            some (.num (Int.negOfNat (digitsVal ((d :: r').takeWhile Char.isDigit))),
              (d :: r').dropWhile Char.isDigit)
          else none -- beyond 2^53 the double rounds: outside the model
        else none
    else if c.isDigit then
      if c = '0' ∧ startsDigit r = true then none -- JSON rejects leading zeros
      else if digitsVal ((c :: r).takeWhile Char.isDigit) ≤ maxExactJsonNat then
        some (.num (Int.ofNat (digitsVal ((c :: r).takeWhile Char.isDigit))),
          (c :: r).dropWhile Char.isDigit)
      else none -- beyond 2^53 the double rounds: outside the model
    else none

/-- Parse a non-empty comma-separated list of array elements followed by
`]`. -/
def parseElems : Nat → List Char → Option (JsonList × List Char)
  | 0, _ => none
  | fuel + 1, input =>
    match parseValue fuel (skipWs input) with
    | none => none
    | some (v, r) =>
      match skipWs r with
      | [] => none
      | d :: r' =>
        if d = ',' then
          match parseElems fuel r' with
          | some (tl, r'') => some (.cons v tl, r'')
          | none => none
        else if d = ']' then some (.cons v .nil, r')
        else none

/-- Parse a non-empty comma-separated list of object members followed by
`}`, returned as the member list in source order (the object is assembled
from it by `jsObjOfMembers`, giving `JSON.parse`'s last-wins treatment of
duplicate keys). -/
def parseMembers : Nat → List Char → Option (List (String × Json) × List Char)
  | 0, _ => none
  | fuel + 1, input =>
    match skipWs input with
    | '"' :: r =>
      (match parseStr r with
       | none => none
       | some (k, r1) =>
         match skipWs r1 with
         | ':' :: r2 =>
           (match parseValue fuel (skipWs r2) with
            | none => none
            | some (v, r3) =>
              match skipWs r3 with
              | [] => none
              | d :: r4 =>
                if d = ',' then
                  match parseMembers fuel r4 with
                  | some (tl, r5) => some ((String.mk k, v) :: tl, r5)
                  | none => none
                else if d = '}' then some ([(String.mk k, v)], r4)
                else none)
         | _ => none)
    | _ => none

end

/-- The model of `JSON.parse`: `none` models a thrown `SyntaxError`. -/
def parseJson (s : String) : Option Json :=
  match parseValue (s.length + 1) (skipWs s.data) with
  | some (v, rest) => if skipWs rest = [] then some v else none
  | none => none

/-! ## Sizes of JSON values (used to supply parser fuel in proofs). -/

mutual

def jsizeJ : Json → Nat
  | .null => 1
  | .bool _ => 1
  | .num _ => 1
  | .str _ => 1
  | .arr xs => jsizeL xs + 1
  | .obj xs => jsizeO xs + 1
termination_by structural v => v

def jsizeL : JsonList → Nat
  | .nil => 1
  | .cons v tl => jsizeJ v + jsizeL tl + 1
termination_by structural v => v

def jsizeO : JsonObj → Nat
  | .nil => 1
  | .cons _ v tl => jsizeJ v + jsizeO tl + 1
termination_by structural v => v

end

/-! ## Well-formed JSON values: the image of `parseJson`.

Every value `JSON.parse` can produce has duplicate-free object keys (later
duplicates overwrite) and integral magnitudes at most 2^53 (the model's
exact-double range).  Round-tripping through the serializer, and hence
injectivity of the serializer, holds on this class. -/

mutual

def Json.wf : Json → Prop
  | .null => True
  | .bool _ => True
  | .num n => n.natAbs ≤ maxExactJsonNat
  | .str _ => True
  | .arr xs => xs.wf
  | .obj xs => xs.keys.Nodup ∧ xs.wf
termination_by structural v => v

def JsonList.wf : JsonList → Prop
  | .nil => True
  | .cons v tl => v.wf ∧ tl.wf
termination_by structural v => v

def JsonObj.wf : JsonObj → Prop
  | .nil => True
  | .cons _ v tl => v.wf ∧ tl.wf
termination_by structural v => v

end

/-! ## ASCII string helpers with JavaScript semantics. -/

def isAsciiUpper (c : Char) : Bool := ('A' ≤ c) && (c ≤ 'Z')
def isAsciiLower (c : Char) : Bool := ('a' ≤ c) && (c ≤ 'z')

def jsToLowerChar (c : Char) : Char :=
  if isAsciiUpper c then Char.ofNat (c.toNat + 32) else c

def jsToUpperChar (c : Char) : Char :=
  if isAsciiLower c then Char.ofNat (c.toNat - 32) else c

/-- `String.prototype.toLowerCase` (ASCII fragment). -/
def jsToLower (s : String) : String := String.mk (s.data.map jsToLowerChar)

/-- `String.prototype.toUpperCase` (ASCII fragment). -/
def jsToUpper (s : String) : String := String.mk (s.data.map jsToUpperChar)

/-- Is `pat` a contiguous sublist of `l`? (`String.prototype.includes`.) -/
def subListAt (pat : List Char) : List Char → Bool
  | [] => pat.isEmpty
  | c :: r => pat.isPrefixOf (c :: r) || subListAt pat r

def strIncludes (s pat : String) : Bool := subListAt pat.data s.data

def strStartsWith (s p : String) : Bool := p.data.isPrefixOf s.data

/-- Replace the first occurrence of a (non-empty) pattern
(`String.prototype.replace` with a string pattern). -/
def replaceFirstL (pat repl : List Char) : List Char → List Char
  | [] => []
  | c :: r =>
    if pat.isPrefixOf (c :: r) then repl ++ (c :: r).drop pat.length
    else c :: replaceFirstL pat repl r

def strReplaceFirst (s pat repl : String) : String :=
  String.mk (replaceFirstL pat.data repl.data s.data)

/-- Replace every occurrence of one character (`replace` with a `/x/g`
single-character regex). -/
def replaceAllChar (c : Char) (repl : List Char) (l : List Char) : List Char :=
  l.flatMap (fun x => if x = c then repl else [x])

def joinSep (sep : String) : List String → String
  | [] => ""
  | [s] => s
  | s :: r :: t => s ++ sep ++ joinSep sep (r :: t)

/-- The character class of the JavaScript regex `\s` (ASCII fragment). -/
def isJsWs (c : Char) : Bool :=
  c == ' ' || c == '\t' || c == '\n' || c == '\r' || c == '\x0b' || c == '\x0c'

/-! ## `scripts/generate-code-samples.js` : data model.

OpenAPI operation data, typed as described by the document's data model.
A JavaScript `undefined`/absent field is `Option.none`.  The superseded
`x-code-samples` field is `xCodeSamplesLegacy`. -/

/-- OpenAPI schema node (the fields the generator reads). -/
inductive Schema where
  | mk : (type : Option String) → (properties : Option (List (String × Schema))) →
         (required : Option (List String)) → (items : Option Schema) →
         (exampleV : Option Json) → (format : Option String) →
         (enumV : Option (List Json)) → (minimum : Option Int) → Schema

def Schema.type : Schema → Option String | .mk t _ _ _ _ _ _ _ => t
def Schema.properties : Schema → Option (List (String × Schema)) | .mk _ p _ _ _ _ _ _ => p
def Schema.required : Schema → Option (List String) | .mk _ _ r _ _ _ _ _ => r
def Schema.items : Schema → Option Schema | .mk _ _ _ i _ _ _ _ => i
def Schema.exampleV : Schema → Option Json | .mk _ _ _ _ e _ _ _ => e
def Schema.format : Schema → Option String | .mk _ _ _ _ _ f _ _ => f
def Schema.enumV : Schema → Option (List Json) | .mk _ _ _ _ _ _ e _ => e
def Schema.minimum : Schema → Option Int | .mk _ _ _ _ _ _ _ m => m

structure Param where
  name : String
  in_ : String           -- the JS field `in`
  exampleV : Option Json -- the JS field `example`
  schema : Option Schema

/-- The `application/json` entry of `requestBody.content`. -/
structure MediaTypeObj where
  exampleV : Option Json -- `content.example`
  schema : Option Schema

structure RequestBody where
  contentJson : Option MediaTypeObj -- `requestBody.content?.['application/json']`

structure Sample where
  lang : String
  label : String
  source : String

structure Operation where
  operationId : Option String
  tags : List String
  parameters : List Param
  requestBody : Option RequestBody
  xCodeSamples : Option (List Sample)
  xCodeSamplesLegacy : Option (List Sample)

/-- A path item: its shared `parameters` key and every other (method) key.
The literal `parameters` key is kept apart because its value is a parameter
array, not an operation; the generator's loop skips exactly that key. -/
structure PathItem where
  parameters : List Param
  ops : List (String × Operation)

structure ApiSpec where
  paths : List (String × PathItem)

/-! ## `scripts/generate-code-samples.js` : helpers. -/

def BASE_URL : String := "https://api.widgetic.com/v1"

def sdkTypescript : String := "@widgetic/api-sdk"
def sdkPython : String := "widgetic_api"
def sdkGo : String := "github.com/widgetic/widgetic-go"
def sdkRuby : String := "widgetic-api"
def sdkPhp : String := "Widgetic\\Api"
def sdkJava : String := "com.widgetic.api"
def sdkCsharp : String := "Widgetic.Api"

/-- `getApiClassName(operationId, tag)`: the tag (when truthy) with all
whitespace removed, suffixed `Api`; otherwise the fallback `Api`. -/
def getApiClassName (_operationId : String) (tag : String) : String :=
  if tag ≠ "" then String.mk (tag.data.filter (fun c => !isJsWs c)) ++ "Api"
  else "Api"

/-- `operationId.charAt(0).toUpperCase() + operationId.slice(1)`. -/
def pascalFirst (s : String) : String :=
  match s.data with
  | [] => ""
  | c :: r => String.mk (jsToUpperChar c :: r)

/-- `getMethodName(operationId, lang)`: snake_case for python/ruby
(an underscore before each capital, everything lowercased, one leading
underscore stripped), PascalCase for go, the identifier itself otherwise. -/
def getMethodName (operationId : String) (lang : String) : String :=
  if operationId = "" then "execute"
  else if lang == "python" || lang == "ruby" then
    let underscored := operationId.data.flatMap
      (fun c => if isAsciiUpper c then ['_', c] else [c])
    let lowered := underscored.map jsToLowerChar
    match lowered with
    | '_' :: rest => String.mk rest
    | l => String.mk l
  else if lang == "go" then pascalFirst operationId
  else operationId

/-- A JS `if (x)` test on an optional JSON value: present and truthy. -/
def exampleIfTruthy : Option Json → Option Json
  | some e => if e.truthy then some e else none
  | none => none

/-- `getExampleValue(param)`: a truthy explicit example wins, then the
schema's truthy example, then name-substring heuristics, then the declared
schema type, then the generic placeholder. -/
def getExampleValue (p : Param) : Json :=
  match exampleIfTruthy p.exampleV with
  | some e => e
  | none =>
  match exampleIfTruthy (p.schema.bind Schema.exampleV) with
  | some e => e
  | none =>
    let name := jsToLower p.name
    if strIncludes name "id" then .str "example-uuid-123"
    else if strIncludes name "table" then .str "my_table"
    else if strIncludes name "feature" then .str "widgets.create"
    else
      match p.schema.bind Schema.type with
      | some "integer" => .str "1"
      | some "number" => .str "1.0"
      | some "boolean" => .str "true"
      | _ => .str "example"

def JsonList.length : JsonList → Nat
  | .nil => 0
  | .cons _ tl => tl.length + 1

mutual

/-- JavaScript template-literal coercion of a JSON value to a string. -/
def jsCoerceString : Json → String
  | .null => "null"
  | .bool true => "true"
  | .bool false => "false"
  | .num n => String.mk (serInt n)
  | .str s => s
  | .arr xs => jsCoerceElems xs
  | .obj _ => "[object Object]"
termination_by structural v => v

/-- `Array.prototype.toString`: elements joined with `,`
(`null` elements print as the empty string). -/
def jsCoerceElems : JsonList → String
  | .nil => ""
  | .cons v .nil => (match v with | .null => "" | w => jsCoerceString w)
  | .cons v (.cons w tl) =>
    (match v with | .null => "" | u => jsCoerceString u) ++ "," ++
      jsCoerceElems (.cons w tl)
termination_by structural v => v

end

/-- `generateExamplePath`: substitute each `{param}` placeholder of the
path template with the parameter's example value. -/
def generateExamplePath (pathTemplate : String) (parameters : List Param) : String :=
  (parameters.filter (fun p => p.in_ == "path")).foldl
    (fun acc p =>
      strReplaceFirst acc ("\x7b" ++ p.name ++ "\x7d")
        (jsCoerceString (getExampleValue p)))
    pathTemplate

def hexCharU : Nat → Char
  | 0 => '0' | 1 => '1' | 2 => '2' | 3 => '3' | 4 => '4'
  | 5 => '5' | 6 => '6' | 7 => '7' | 8 => '8' | 9 => '9'
  | 10 => 'A' | 11 => 'B' | 12 => 'C' | 13 => 'D' | 14 => 'E' | 15 => 'F'
  | _ => '*'

/-- UTF-8 bytes of one character. -/
def utf8Bytes (c : Char) : List Nat :=
  let n := c.toNat
  if n < 0x80 then [n]
  else if n < 0x800 then
    [0xC0 ||| (n >>> 6), 0x80 ||| (n &&& 0x3F)]
  else if n < 0x10000 then
    [0xE0 ||| (n >>> 12), 0x80 ||| ((n >>> 6) &&& 0x3F), 0x80 ||| (n &&& 0x3F)]
  else
    [0xF0 ||| (n >>> 18), 0x80 ||| ((n >>> 12) &&& 0x3F),
     0x80 ||| ((n >>> 6) &&& 0x3F), 0x80 ||| (n &&& 0x3F)]

/-- Characters `encodeURIComponent` leaves unescaped. -/
def uriUnreserved (c : Char) : Bool :=
  isAsciiUpper c || isAsciiLower c || (('0' ≤ c) && (c ≤ '9')) ||
    c == '-' || c == '_' || c == '.' || c == '!' || c == '~' ||
    c == '*' || c == '\'' || c == '(' || c == ')'

def encodeURIComponent (s : String) : String :=
  String.mk (s.data.flatMap (fun c =>
    if uriUnreserved c then [c]
    else (utf8Bytes c).flatMap (fun b => ['%', hexCharU (b / 16), hexCharU (b % 16)])))

/-- `generateQueryString`: the first 2 query parameters rendered as
URL-encoded `name=value` pairs joined with `&`, prefixed `?`
(empty string when there is no query parameter). -/
def generateQueryString (parameters : List Param) : String :=
  let queryParams := parameters.filter (fun p => p.in_ == "query")
  if queryParams.isEmpty then ""
  else
    let pairs := (queryParams.take 2).map (fun p =>
      p.name ++ "=" ++ encodeURIComponent (jsCoerceString (getExampleValue p)))
    "?" ++ joinSep "&" pairs

def propsLookup : List (String × Schema) → String → Option Schema
  | [], _ => none
  | (k', s) :: tl, k => if k' = k then some s else propsLookup tl k

/-- `generateExampleFromSchema(schema, depth)`.  The JS `depth` argument is
modelled as fuel: fuel `0` is `depth > 3` (empty object), and a recursive
call at `depth + 1` burns one unit of fuel; the generator's entry point
uses fuel `4` (depth `0`). -/
def genExampleFuel : Nat → Schema → Json
  | 0, _ => .obj .nil
  | fuel + 1, s =>
    match exampleIfTruthy s.exampleV with
    | some e => e
    | none =>
      if s.type == some "object" || s.properties.isSome then
        let props := s.properties.getD []
        let required := s.required.getD []
        let keys := required ++
          ((props.map Prod.fst).filter (fun k => !required.contains k)).take 2
        .obj ((keys.take 4).foldl (fun o k =>
          match propsLookup props k with
          | some sub => o.insert k (genExampleFuel fuel sub)
          | none => o) .nil)
      else if s.type == some "array" then
        match s.items with
        | some it => .arr (.cons (genExampleFuel fuel it) .nil)
        | none => .arr (.cons (.str "item") .nil)
      else
        match s.type with
        | some "string" =>
          if s.format == some "uuid" then .str "uuid-example-123"
          else if s.format == some "email" then .str "user@example.com"
          else if s.format == some "uri" then .str "https://example.com"
          else
            match s.enumV with
            | some (e :: _) => e
            | some [] => .null -- JS `schema.enum[0]` is `undefined` here
            | none => .str "example"
        | some "integer" =>
          (match s.minimum with
           | some m => if m != 0 then .num m else .num 1
           | none => .num 1)
        | some "number" =>
          -- `1.0` and `1` are the same JS number
          (match s.minimum with
           | some m => if m != 0 then .num m else .num 1
           | none => .num 1)
        | some "boolean" => .bool true
        | _ => .str "example"

def generateExampleFromSchema (s : Schema) : Json := genExampleFuel 4 s

/-- `generateRequestBody(operation)`: the `application/json` media type's
truthy example, else the schema's truthy example, else a synthesized
example; `none` models the JS `null` result. -/
def generateRequestBody (operation : Operation) : Option Json :=
  match operation.requestBody with
  | none => none
  | some rb =>
    match rb.contentJson with
    | none => none
    | some content =>
      match content.schema with
      | none => none
      | some schema =>
        match exampleIfTruthy content.exampleV with
        | some e => some e
        | none =>
          match exampleIfTruthy schema.exampleV with
          | some e => some e
          | none => some (generateExampleFromSchema schema)

/-! ## Pretty serializer: `JSON.stringify(v, null, 2)`. -/

def indentN (n : Nat) : List Char := List.replicate n ' '

mutual

def serP : Nat → Json → List Char
  | _, .null => litNull
  | _, .bool true => litTrue
  | _, .bool false => litFalse
  | _, .num n => serInt n
  | _, .str s => '"' :: (escList s.data ++ ['"'])
  | _, .arr .nil => ['[', ']']
  | lvl, .arr (.cons v tl) =>
    '[' :: '\n' :: (serPArr (lvl + 1) (.cons v tl) ++
      '\n' :: (indentN (2 * lvl) ++ [']']))
  | _, .obj .nil => ['{', '}']
  | lvl, .obj (.cons k v tl) =>
    '{' :: '\n' :: (serPObj (lvl + 1) (.cons k v tl) ++
      '\n' :: (indentN (2 * lvl) ++ ['}']))
termination_by structural _ v => v

def serPArr : Nat → JsonList → List Char
  | _, .nil => []
  | lvl, .cons v .nil => indentN (2 * lvl) ++ serP lvl v
  | lvl, .cons v (.cons w tl) =>
    (indentN (2 * lvl) ++ serP lvl v) ++ ',' :: '\n' :: serPArr lvl (.cons w tl)
termination_by structural _ v => v

def serPObj : Nat → JsonObj → List Char
  | _, .nil => []
  | lvl, .cons k v .nil =>
    indentN (2 * lvl) ++ '"' :: (escList k.data ++ '"' :: ':' :: ' ' :: serP lvl v)
  | lvl, .cons k v (.cons k' w tl) =>
    (indentN (2 * lvl) ++ '"' :: (escList k.data ++ '"' :: ':' :: ' ' :: serP lvl v)) ++
      ',' :: '\n' :: serPObj lvl (.cons k' w tl)
termination_by structural _ v => v

end

def serializePretty2 (v : Json) : String := String.mk (serP 0 v)

/-! ## Per-language sample builders. -/

/-- `generateCurlSample`.  Note the query string is only attached when the
method string is exactly `'GET'` (case-sensitive), while the body branch
upper-cases the method before comparing. -/
def generateCurlSample (method pathTemplate : String) (operation : Operation)
    (parameters : List Param) : String :=
  let examplePath := generateExamplePath pathTemplate parameters
  let queryString := if method = "GET" then generateQueryString parameters else ""
  let url := BASE_URL ++ examplePath ++ queryString
  let curl := "curl -X " ++ jsToUpper method ++ " '" ++ url ++
    "' \\\n  -H 'Authorization: Bearer YOUR_API_KEY'"
  match generateRequestBody operation with
  | some body =>
    if body.truthy &&
        (jsToUpper method == "POST" || jsToUpper method == "PUT" ||
         jsToUpper method == "PATCH") then
      curl ++ " \\\n  -H 'Content-Type: application/json'" ++
        " \\\n  -d '" ++
        String.mk (replaceAllChar '\'' ['\'', '\\', '\'', '\''] (serP 0 body)) ++ "'"
    else curl
  | none => curl

/-- `operation.operationId || defaultId`. -/
def opIdOr (operation : Operation) (defaultId : String) : String :=
  match operation.operationId with
  | some s => if s ≠ "" then s else defaultId
  | none => defaultId

/-- `p.name.replace(/([-_][a-z])/g, g => g[1].toUpperCase())`. -/
def camelize : List Char → List Char
  | [] => []
  | [c] => [c]
  | c :: d :: rest =>
    if (c == '-' || c == '_') && isAsciiLower d then
      jsToUpperChar d :: camelize rest
    else c :: camelize (d :: rest)

/-- `Object.keys` of an arbitrary JS value (string and array values expose
their indices; primitives have no keys). -/
def jsObjectKeys : Json → List String
  | .obj o => o.keys
  | .str s => (List.range s.length).map (fun i => String.mk (serNat i))
  | .arr xs => (List.range xs.length).map (fun i => String.mk (serNat i))
  | _ => []

def generateTypeScriptSample (_method _pathTemplate : String) (operation : Operation)
    (parameters : List Param) (tag : String) : String :=
  let operationId := opIdOr operation "execute"
  let className := getApiClassName operationId tag
  let methodName := getMethodName operationId "typescript"
  let code := "import \x7b " ++ className ++ " \x7d from '" ++ sdkTypescript ++ "';\n\n" ++
    "const api = new " ++ className ++ "('YOUR_API_KEY');\n\n"
  let body := generateRequestBody operation
  let pathParams := parameters.filter (fun p => p.in_ == "path")
  let params : JsonObj := pathParams.foldl
    (fun o p => o.insert (String.mk (camelize p.name.data)) (getExampleValue p)) .nil
  let params :=
    match body with
    | some b =>
      if b.truthy then
        params.insert ((jsObjectKeys b).headD "undefined" ++ "Request") b
      else params
    | none => params
  let callLine :=
    match params with
    | .nil => "  const result = await api." ++ methodName ++ "();\n"
    | ps =>
      "  const result = await api." ++ methodName ++ "(" ++
        String.mk (replaceAllChar '\n' ('\n' :: [' ', ' ']) (serP 0 (.obj ps))) ++
        ");\n"
  code ++ "try \x7b\n" ++ callLine ++
    "  console.log(result);\n" ++
    "\x7d catch (error) \x7b\n" ++
    "  console.error('Error:', error.message);\n" ++
    "\x7d"

def generatePythonSample (_method _pathTemplate : String) (operation : Operation)
    (parameters : List Param) (tag : String) : String :=
  let operationId := opIdOr operation "execute"
  -- the JS `className` local (`...replace('Api', '_api')`) is never used
  let methodName := getMethodName operationId "python"
  let code := "import " ++ sdkPython ++ "\n" ++
    "from " ++ sdkPython ++ ".rest import ApiException\n\n" ++
    "configuration = " ++ sdkPython ++ ".Configuration(\n" ++
    "    host=\"https://api.widgetic.com/v1\",\n" ++
    "    api_key=\x7b\"Authorization\": \"Bearer YOUR_API_KEY\"\x7d\n" ++
    ")\n\n" ++
    "with " ++ sdkPython ++ ".ApiClient(configuration) as api_client:\n" ++
    "    api = " ++ sdkPython ++ "." ++ getApiClassName operationId tag ++
    "(api_client)\n" ++
    "    try:\n"
  let body := generateRequestBody operation
  let pathParams := parameters.filter (fun p => p.in_ == "path")
  -- `p.name.replace(/([A-Z])/g, '_$1').toLowerCase()` (no leading strip here)
  let args := pathParams.map (fun p =>
    let snakeName := String.mk ((p.name.data.flatMap
      (fun c => if isAsciiUpper c then ['_', c] else [c])).map jsToLowerChar)
    snakeName ++ "=\"" ++ jsCoerceString (getExampleValue p) ++ "\"")
  let args :=
    match body with
    | some b =>
      if b.truthy then args ++ ["body=" ++ String.mk (serJ b)] else args
    | none => args
  code ++ "        result = api." ++ methodName ++ "(" ++ joinSep ", " args ++ ")\n" ++
    "        print(result)\n" ++
    "    except ApiException as e:\n" ++
    "        print(f\"Error: \x7be\x7d\")"

def generateGoSample (_method _pathTemplate : String) (operation : Operation)
    (_parameters : List Param) (tag : String) : String :=
  let operationId := opIdOr operation "Execute"
  let methodName := getMethodName operationId "go"
  let apiName := strReplaceFirst (getApiClassName operationId tag) "Api" "API"
  "package main\n\n" ++
  "import (\n" ++
  "    \"context\"\n" ++
  "    \"fmt\"\n" ++
  "    widgetic \"" ++ sdkGo ++ "\"\n" ++
  ")\n\n" ++
  "func main() \x7b\n" ++
  "    cfg := widgetic.NewConfiguration()\n" ++
  "    cfg.AddDefaultHeader(\"Authorization\", \"Bearer YOUR_API_KEY\")\n" ++
  "    client := widgetic.NewAPIClient(cfg)\n\n" ++
  "    result, _, err := client." ++ apiName ++ "." ++ methodName ++
    "(context.Background()).Execute()\n" ++
  "    if err != nil \x7b\n" ++
  "        fmt.Printf(\"Error: %v\\n\", err)\n" ++
  "        return\n" ++
  "    \x7d\n" ++
  "    fmt.Printf(\"Result: %v\\n\", result)\n" ++
  "\x7d"

def generateRubySample (_method _pathTemplate : String) (operation : Operation)
    (parameters : List Param) (tag : String) : String :=
  let operationId := opIdOr operation "execute"
  let className := getApiClassName operationId tag
  let methodName := getMethodName operationId "ruby"
  let pathParams := parameters.filter (fun p => p.in_ == "path")
  let args := joinSep ", " (pathParams.map (fun p =>
    "'" ++ jsCoerceString (getExampleValue p) ++ "'"))
  "require '" ++ sdkRuby ++ "'\n\n" ++
  "WidgeticApi.configure do |config|\n" ++
  "  config.api_key['Authorization'] = 'Bearer YOUR_API_KEY'\n" ++
  "  config.host = 'https://api.widgetic.com/v1'\n" ++
  "end\n\n" ++
  "api = WidgeticApi::" ++ className ++ ".new\n\n" ++
  "begin\n" ++
  "  result = api." ++ methodName ++ "(" ++ args ++ ")\n" ++
  "  p result\n" ++
  "rescue WidgeticApi::ApiError => e\n" ++
  "  puts \"Error: #\x7be\x7d\"\n" ++
  "end"

def generatePhpSample (_method _pathTemplate : String) (operation : Operation)
    (parameters : List Param) (tag : String) : String :=
  let operationId := opIdOr operation "execute"
  let className := getApiClassName operationId tag
  let methodName := getMethodName operationId "php"
  let pathParams := parameters.filter (fun p => p.in_ == "path")
  let args := joinSep ", " (pathParams.map (fun p =>
    "'" ++ jsCoerceString (getExampleValue p) ++ "'"))
  "<?php\n" ++
  "require_once __DIR__ . '/vendor/autoload.php';\n\n" ++
  "$config = " ++ sdkPhp ++ "\\Configuration::getDefaultConfiguration()\n" ++
  "    ->setApiKey('Authorization', 'Bearer YOUR_API_KEY')\n" ++
  "    ->setHost('https://api.widgetic.com/v1');\n\n" ++
  "$api = new " ++ sdkPhp ++ "\\Api\\" ++ className ++ "(\n" ++
  "    new GuzzleHttp\\Client(),\n" ++
  "    $config\n" ++
  ");\n\n" ++
  "try \x7b\n" ++
  "    $result = $api->" ++ methodName ++ "(" ++ args ++ ");\n" ++
  "    print_r($result);\n" ++
  "\x7d catch (Exception $e) \x7b\n" ++
  "    echo 'Error: ' . $e->getMessage();\n" ++
  "\x7d"

def generateJavaSample (_method _pathTemplate : String) (operation : Operation)
    (parameters : List Param) (tag : String) : String :=
  let operationId := opIdOr operation "execute"
  let className := getApiClassName operationId tag
  let methodName := getMethodName operationId "java"
  let pathParams := parameters.filter (fun p => p.in_ == "path")
  let args := joinSep ", " (pathParams.map (fun p =>
    "\"" ++ jsCoerceString (getExampleValue p) ++ "\""))
  "import " ++ sdkJava ++ ".ApiClient;\n" ++
  "import " ++ sdkJava ++ ".ApiException;\n" ++
  "import " ++ sdkJava ++ ".Configuration;\n" ++
  "import " ++ sdkJava ++ ".auth.ApiKeyAuth;\n" ++
  "import " ++ sdkJava ++ ".api." ++ className ++ ";\n\n" ++
  "public class Example \x7b\n" ++
  "    public static void main(String[] args) \x7b\n" ++
  "        ApiClient client = Configuration.getDefaultApiClient();\n" ++
  "        client.setBasePath(\"https://api.widgetic.com/v1\");\n\n" ++
  "        ApiKeyAuth auth = (ApiKeyAuth) client.getAuthentication(\"Authorization\");\n" ++
  "        auth.setApiKey(\"Bearer YOUR_API_KEY\");\n\n" ++
  "        " ++ className ++ " api = new " ++ className ++ "(client);\n" ++
  "        try \x7b\n" ++
  "            var result = api." ++ methodName ++ "(" ++ args ++ ");\n" ++
  "            System.out.println(result);\n" ++
  "        \x7d catch (ApiException e) \x7b\n" ++
  "            System.err.println(\"Error: \" + e.getMessage());\n" ++
  "        \x7d\n" ++
  "    \x7d\n" ++
  "\x7d"

def generateCSharpSample (_method _pathTemplate : String) (operation : Operation)
    (parameters : List Param) (tag : String) : String :=
  let operationId := opIdOr operation "Execute"
  let className := getApiClassName operationId tag
  let methodName := getMethodName operationId "csharp"
  let asyncMethodName := pascalFirst methodName ++ "Async"
  let pathParams := parameters.filter (fun p => p.in_ == "path")
  let args := joinSep ", " (pathParams.map (fun p =>
    "\"" ++ jsCoerceString (getExampleValue p) ++ "\""))
  "using " ++ sdkCsharp ++ ".Api;\n" ++
  "using " ++ sdkCsharp ++ ".Client;\n\n" ++
  "var config = new Configuration();\n" ++
  "config.BasePath = \"https://api.widgetic.com/v1\";\n" ++
  "config.ApiKey.Add(\"Authorization\", \"Bearer YOUR_API_KEY\");\n\n" ++
  "var api = new " ++ className ++ "(config);\n\n" ++
  "try\n" ++
  "\x7b\n" ++
  "    var result = await api." ++ asyncMethodName ++ "(" ++ args ++ ");\n" ++
  "    Console.WriteLine(result);\n" ++
  "\x7d\n" ++
  "catch (ApiException e)\n" ++
  "\x7b\n" ++
  "    Console.WriteLine($\"Error: \x7be.Message\x7d\");\n" ++
  "\x7d"

/-- `generateCodeSamples`: the fixed-order 8-entry sample array. -/
def generateCodeSamples (method pathTemplate : String) (operation : Operation)
    (parameters : List Param) : List Sample :=
  let tag :=
    match operation.tags.head? with
    | some t => if t ≠ "" then t else "API"
    | none => "API"
  [⟨"curl", "cURL", generateCurlSample method pathTemplate operation parameters⟩,
   ⟨"javascript", "Node.js",
     generateTypeScriptSample method pathTemplate operation parameters tag⟩,
   ⟨"python", "Python",
     generatePythonSample method pathTemplate operation parameters tag⟩,
   ⟨"go", "Go", generateGoSample method pathTemplate operation parameters tag⟩,
   ⟨"ruby", "Ruby", generateRubySample method pathTemplate operation parameters tag⟩,
   ⟨"php", "PHP", generatePhpSample method pathTemplate operation parameters tag⟩,
   ⟨"java", "Java", generateJavaSample method pathTemplate operation parameters tag⟩,
   ⟨"csharp", "C#", generateCSharpSample method pathTemplate operation parameters tag⟩]

/-- The body of `main`'s inner loop: attach `x-codeSamples`, delete the
superseded `x-code-samples`. -/
def processOperation (pathTemplate : String) (pathParams : List Param)
    (method : String) (op : Operation) : Operation :=
  { op with
    xCodeSamples :=
      some (generateCodeSamples method pathTemplate op (pathParams ++ op.parameters)),
    xCodeSamplesLegacy := none }

/-- `main`'s walk over one path item: every method key except the literal
`parameters` key is processed. -/
def processPathItem (pathTemplate : String) (item : PathItem) : PathItem :=
  { item with
    ops := item.ops.map (fun mo =>
      (mo.1, processOperation pathTemplate item.parameters mo.1 mo.2)) }

/-- `main`'s walk over the whole document. -/
def processSpec (spec : ApiSpec) : ApiSpec :=
  { spec with paths := spec.paths.map (fun pi => (pi.1, processPathItem pi.1 pi.2)) }

/-! ## `scripts/sync-openapi.js` and `scripts/check-openapi-drift.js`.

The source-resolution environment: the optional `OPENAPI_SOURCE_URL`
variable, whether the runtime has a global `fetch`, the outcome of the
single GET request (`some body` iff the response is ok and its text is
`body`), and the contents of the fixed local source file (`some text` iff
it exists). -/
structure SourceEnv where
  remoteUrl : Option String
  fetchAvailable : Bool
  fetchResult : Option String
  localFile : Option String

/-- `readSourceSpec` of `sync-openapi.js`: when a remote URL is configured
the fetch must succeed (there is no fall-back to the local file); otherwise
the local file must exist.  `Except.error` models both the thrown errors
and the `process.exit(1)` missing-file branch. -/
def readSourceSpec (env : SourceEnv) : Except String String :=
  match env.remoteUrl with
  | some _ =>
    if !env.fetchAvailable then
      .error "Global fetch is not available in this Node runtime."
    else
      match env.fetchResult with
      | some body => .ok body
      | none => .error "Failed to fetch OpenAPI spec"
  | none =>
    match env.localFile with
    | some content => .ok content
    | none => .error "Source file not found"

/-- `readSourceOrThrow` of `check-openapi-drift.js` (same resolution). -/
def readSourceOrThrow (env : SourceEnv) : Except String String :=
  match env.remoteUrl with
  | some _ =>
    if !env.fetchAvailable then
      .error "Global fetch is not available in this Node runtime."
    else
      match env.fetchResult with
      | some body => .ok body
      | none => .error "Failed to fetch OpenAPI spec"
  | none =>
    match env.localFile with
    | some content => .ok content
    | none => .error "File not found"

structure SyncEnv where
  src : SourceEnv
  /-- Contents of the destination `openapi/widgetic-api-public.json`
  (`none` iff the file does not exist). -/
  target : Option String

structure SyncResult where
  exitCode : Nat
  /-- Destination contents after the run. -/
  target : Option String
  /-- Whether `fs.writeFileSync` ran. -/
  wrote : Bool

/-- `Object.entries(v)` restricted to what the endpoint-summary loops
observe: an object yields its members, an array its index/element pairs, a
string its index/character pairs, every other value an empty list. -/
def jsonEntries : Json → List (String × Json)
  | .obj o => spineMembers o
  | .arr xs => xs.toList.enum.map (fun p => (String.mk (serNat p.1), p.2))
  | .str s => s.data.enum.map (fun p => (String.mk (serNat p.1), Json.str (String.mk [p.2])))
  | _ => []

/-- Whether the endpoint-summary loops that run after the write throw a
`TypeError`: `Object.entries(methods)` throws when a path item is `null`,
and `operation['x-access-level']` throws when an operation value (under a
key other than `'parameters'`) is `null`.  Every non-null JSON value
survives both (primitives enumerate to nothing or to characters, and
property access on a primitive just yields `undefined`). -/
def summaryThrows (spec : Json) : Bool :=
  let paths :=
    match spec with
    | .obj o =>
      match lookupMember o "paths" with
      | some v => if v.truthy then v else .obj .nil -- `spec.paths || \x7b\x7d`
      | none => .obj .nil
    | _ => .obj .nil
  (jsonEntries paths).any (fun pv =>
    pv.2.isNull ||
      (jsonEntries pv.2).any (fun mo => (mo.1 != "parameters") && mo.2.isNull))

/-- `syncOpenApiSpecAsync`: read the source, `JSON.parse` it (a parse
failure, and the `spec.paths` member access on a `null` document at the
path-count log line, are thrown errors caught by the top-level handler ⇒
exit 1); skip the write when the destination is byte-identical (this
returns before the endpoint summary), else write and then print the
endpoint summary, whose loops can still throw on `null` path items or
operations — after the file was already written — giving exit 1. -/
def syncOpenApiSpec (env : SyncEnv) : SyncResult :=
  match readSourceSpec env.src with
  | .error _ => ⟨1, env.target, false⟩
  | .ok sourceSpec =>
    match parseJson sourceSpec with
    | none => ⟨1, env.target, false⟩
    | some spec =>
      match spec with
      | .null => ⟨1, env.target, false⟩ -- `spec.paths` throws a TypeError
      | _ =>
        match env.target with
        | some targetSpec =>
          if targetSpec = sourceSpec then ⟨0, env.target, false⟩
          else ⟨if summaryThrows spec then 1 else 0, some sourceSpec, true⟩
        | none => ⟨if summaryThrows spec then 1 else 0, some sourceSpec, true⟩

/-- `normalizeJson`: `JSON.stringify(JSON.parse(text))`. -/
def normalizeJson (text : String) : Option String :=
  (parseJson text).map serializeJson

structure DriftEnv where
  src : SourceEnv
  /-- Contents of the docs-site copy (`none` iff the file is missing). -/
  target : Option String

/-- The exit code of `check-openapi-drift.js`'s `main` (every thrown error
is caught and turned into exit 1). -/
def checkOpenApiDrift (env : DriftEnv) : Nat :=
  match readSourceOrThrow env.src with
  | .error _ => 1
  | .ok sourceRaw =>
    match env.target with
    | none => 1
    | some targetRaw =>
      match normalizeJson sourceRaw, normalizeJson targetRaw with
      | some source, some target => if source ≠ target then 1 else 0
      | _, _ => 1

/-! ## `scripts/validate-links.js`.

Paths are modelled relative to the documentation root (`DOCS_ROOT`, which
is also the working directory the script is run from); the filesystem is
an existence predicate over normalized root-relative paths. -/

def splitOnCharAux (c : Char) : List Char → List Char → List String
  | acc, [] => [String.mk acc.reverse]
  | acc, x :: r =>
    if x = c then String.mk acc.reverse :: splitOnCharAux c [] r
    else splitOnCharAux c (x :: acc) r

/-- `s.split(c)` for a single-character separator. -/
def strSplitOn (s : String) (c : Char) : List String :=
  splitOnCharAux c [] s.data

/-- `path.dirname` (relative-path fragment used by the script). -/
def dirnameStr (p : String) : String :=
  match (strSplitOn p '/').dropLast with
  | [] => "."
  | segs => joinSep "/" segs

/-- Segment normalization of `path.resolve`/`path.join`: `.` and empty
segments vanish, `..` pops. -/
def normSegs (segs : List String) : List String :=
  segs.foldl (fun acc s =>
    if s = "" || s = "." then acc
    else if s = ".." then acc.dropLast
    else acc ++ [s]) []

/-- `path.resolve(base, rel)` for a relative `rel`, rendered root-relative. -/
def pathResolve (base rel : String) : String :=
  joinSep "/" (normSegs (strSplitOn base '/' ++ strSplitOn rel '/'))

/-- `path.resolve(DOCS_ROOT, p)`, rendered root-relative. -/
def rootResolve (p : String) : String :=
  joinSep "/" (normSegs (strSplitOn p '/'))

/-- `path.join(a, b)` (normalization happens in `rootResolve`). -/
def pathJoin (a b : String) : String :=
  if a = "" then b else a ++ "/" ++ b

/-- `link.split('#')[0]`. -/
def linkBase (link : String) : String := (strSplitOn link '#').headD ""

/-- The normalized `targetPath` of `resolveInternalLink`. -/
def linkTarget (link fromFile : String) : String :=
  let basePath := linkBase link
  if strStartsWith basePath "./" || strStartsWith basePath "../" then
    pathResolve (dirnameStr fromFile) basePath
  else if strStartsWith basePath "/" then String.mk (basePath.data.drop 1)
  else basePath

/-- The candidate list `possiblePaths`, resolved against the docs root:
the literal path and exactly four variants. -/
def linkCandidates (link fromFile : String) : List String :=
  let targetPath := linkTarget link fromFile
  [targetPath,
   targetPath ++ ".mdx",
   targetPath ++ ".md",
   pathJoin targetPath "index.mdx",
   pathJoin targetPath "index.md"].map rootResolve

/-- `resolveInternalLink(link, fromFile)`: `none` for an anchor-only link
and when no candidate exists; otherwise the first existing candidate. -/
def resolveInternalLink (fs : String → Bool) (link fromFile : String) : Option String :=
  if linkBase link = "" then none
  else (linkCandidates link fromFile).find? fs

structure LinkError where
  file : String
  link : String
  message : String

/-- The accumulation loop of `validateLinks`, applied to the already
extracted links of each content file. -/
def validateLinksOn (fs : String → Bool)
    (files : List (String × List String)) : List LinkError :=
  files.flatMap (fun fl =>
    fl.2.filterMap (fun link =>
      match resolveInternalLink fs link fl.1 with
      | some _ => none
      | none =>
        if strStartsWith link "#" then none
        else some ⟨fl.1, link, "Link target not found"⟩))

/-- `validateLinks`' exit code. -/
def validateLinksExit (fs : String → Bool)
    (files : List (String × List String)) : Nat :=
  if (validateLinksOn fs files).isEmpty then 0 else 1

/-! ## Concrete sample data used to instantiate the theorems. -/

def stringSchema : Schema := .mk (some "string") none none none none none none none
def integerSchema : Schema := .mk (some "integer") none none none none none none none

/-- The request-body schema of the spec's synthesis scenario. -/
def schemaBodyScenario : Schema :=
  .mk (some "object")
    (some [("name", stringSchema), ("color", stringSchema),
           ("size", stringSchema), ("weight", integerSchema)])
    (some ["name"]) none none none none none

/-- An object schema with five required (and declared) properties. -/
def schemaFiveRequired : Schema :=
  .mk (some "object")
    (some [("r1", stringSchema), ("r2", stringSchema), ("r3", stringSchema),
           ("r4", stringSchema), ("r5", stringSchema)])
    (some ["r1", "r2", "r3", "r4", "r5"]) none none none none none

def paramUserId : Param := ⟨"userId", "path", none, none⟩
def paramTableName : Param := ⟨"tableName", "path", none, none⟩
def paramLimitPath : Param := ⟨"limit", "path", none, some integerSchema⟩
def paramLimitQuery : Param := ⟨"limit", "query", none, some integerSchema⟩

/-- A parameter whose declared example is the falsy JSON value `0`. -/
def paramZeroExample : Param := ⟨"count", "query", some (.num 0), some integerSchema⟩

def Schema.clearExample : Schema → Schema
  | .mk t p r i _ f e m => .mk t p r i none f e m

/-- The parameter with its explicit examples removed. -/
def Param.clearExamples (p : Param) : Param :=
  { p with exampleV := none, schema := p.schema.map Schema.clearExample }

def opGetAllWidgets : Operation :=
  { operationId := some "getAllWidgets", tags := ["Widgets"], parameters := [],
    requestBody := none, xCodeSamples := none,
    xCodeSamplesLegacy := some [⟨"curl", "cURL", "superseded"⟩] }

def opListWidgets : Operation :=
  { operationId := some "listWidgets", tags := ["Widgets"],
    parameters := [paramLimitQuery], requestBody := none,
    xCodeSamples := none, xCodeSamplesLegacy := none }

def itemWidgets : PathItem :=
  { parameters := [], ops := [("get", opGetAllWidgets)] }

def specWidgets : ApiSpec := { paths := [("/widgets", itemWidgets)] }

def envSourceCex : SourceEnv :=
  { remoteUrl := some "https://example.com/openapi.json", fetchAvailable := true,
    fetchResult := none, localFile := some "\x7b\x7d" }

def envSyncCex : SyncEnv :=
  { src := { remoteUrl := none, fetchAvailable := false, fetchResult := none,
             localFile := some "oops" },
    target := some "oops" }

def envSyncWit : SyncEnv :=
  { src := { remoteUrl := none, fetchAvailable := false, fetchResult := none,
             localFile := some "\x7b\"paths\": \x7b\x7d\x7d" },
    target := some "\x7b\"paths\": \x7b\x7d\x7d" }

def envDriftWit : DriftEnv :=
  { src := { remoteUrl := none, fetchAvailable := false, fetchResult := none,
             localFile := some "\x7b \"a\": 1 \x7d" },
    target := some "\x7b\"a\":1\x7d" }

/-- A filesystem on which only `guides/setup.md` exists. -/
def fsSetupMd : String → Bool := fun s => s == "guides/setup.md"

end WidgeticDocs

/-! # Theorems -/

namespace WidgeticDocs

/-! ## Digit and hexadecimal characters. -/

theorem digitChar_isDigit {d : Nat} (h : d < 10) : (digitChar d).isDigit = true := by
  interval_cases d <;> decide

theorem digitChar_toNat {d : Nat} (h : d < 10) : (digitChar d).toNat = 48 + d := by
  interval_cases d <;> decide

theorem hexChar_isHex {d : Nat} (h : d < 16) : isHexChar (hexChar d) = true := by
  interval_cases d <;> decide

theorem hexVal_hexChar {d : Nat} (h : d < 16) : hexVal (hexChar d) = d := by
  interval_cases d <;> decide

/-! ## Decimal rendering of naturals. -/

theorem serNatAux_append : ∀ (f n : Nat) (acc : List Char),
    serNatAux f n acc = serNatAux f n [] ++ acc := by
  intro f
  induction f with
  | zero => intro n acc; simp [serNatAux]
  | succ f ih =>
    intro n acc
    by_cases h : n < 10
    · simp [serNatAux, h]
    · simp only [serNatAux, h, if_false]
      rw [ih (n / 10) (digitChar (n % 10) :: acc), ih (n / 10) [digitChar (n % 10)]]
      simp

theorem digitsVal_append_one (A : List Char) (d : Char) :
    digitsVal (A ++ [d]) = 10 * digitsVal A + (d.toNat - 48) := by
  simp [digitsVal, List.foldl_append]

theorem serNat_spec : ∀ (f n : Nat), n < f →
    (serNatAux f n []).all Char.isDigit = true ∧
    digitsVal (serNatAux f n []) = n ∧ serNatAux f n [] ≠ [] := by
  intro f
  induction f with
  | zero => intro n h; omega
  | succ f ih =>
    intro n hn
    by_cases h : n < 10
    · refine ⟨?_, ?_, ?_⟩ <;> simp [serNatAux, h, digitsVal, digitChar_isDigit,
        digitChar_toNat]
    · have hlt : n / 10 < f := by
        have h1 : n / 10 < n := Nat.div_lt_self (by omega) (by omega)
        omega
      obtain ⟨ha, hv, hne⟩ := ih (n / 10) hlt
      have hstep : serNatAux (f + 1) n [] =
          serNatAux f (n / 10) [] ++ [digitChar (n % 10)] := by
        simp only [serNatAux, h, if_false]
        exact serNatAux_append f (n / 10) [digitChar (n % 10)]
      refine ⟨?_, ?_, ?_⟩
      · rw [hstep]
        simp only [List.all_append, ha, Bool.true_and, List.all_cons, List.all_nil,
          Bool.and_true]
        exact digitChar_isDigit (Nat.mod_lt _ (by omega))
      · rw [hstep, digitsVal_append_one, hv, digitChar_toNat (Nat.mod_lt _ (by omega))]
        omega
      · rw [hstep]; simp

theorem serNat_all_digit (n : Nat) : (serNat n).all Char.isDigit = true :=
  (serNat_spec (n + 1) n (Nat.lt_succ_self n)).1

theorem digitsVal_serNat (n : Nat) : digitsVal (serNat n) = n :=
  (serNat_spec (n + 1) n (Nat.lt_succ_self n)).2.1

theorem serNat_ne_nil (n : Nat) : serNat n ≠ [] :=
  (serNat_spec (n + 1) n (Nat.lt_succ_self n)).2.2

theorem serNat_cons (n : Nat) : ∃ c t, serNat n = c :: t ∧ c.isDigit = true := by
  obtain ⟨c, t, hct⟩ := List.exists_cons_of_ne_nil (serNat_ne_nil n)
  refine ⟨c, t, hct, ?_⟩
  have hall := serNat_all_digit n
  rw [hct] at hall
  simp only [List.all_cons, Bool.and_eq_true] at hall
  exact hall.1

/-! ## Character-class facts. -/

theorem digit_ne {c : Char} (h : c.isDigit = true) :
    ∀ d : Char, d.isDigit = false → c ≠ d := by
  intro d hd he
  rw [he, hd] at h
  exact Bool.false_ne_true h

theorem digit_facts {c : Char} (h : c.isDigit = true) :
    c ≠ 'n' ∧ c ≠ 't' ∧ c ≠ 'f' ∧ c ≠ '"' ∧ c ≠ '[' ∧ c ≠ '{' ∧ c ≠ '-' ∧
    isWsChar c = false ∧ c ≠ ']' ∧ c ≠ '}' ∧ c ≠ ',' ∧ c ≠ ':' := by
  have h1 : c ≠ ' ' := digit_ne h ' ' (by decide)
  have h2 : c ≠ '\t' := digit_ne h '\t' (by decide)
  have h3 : c ≠ '\n' := digit_ne h '\n' (by decide)
  have h4 : c ≠ '\r' := digit_ne h '\r' (by decide)
  refine ⟨digit_ne h 'n' (by decide), digit_ne h 't' (by decide),
    digit_ne h 'f' (by decide), digit_ne h '"' (by decide),
    digit_ne h '[' (by decide), digit_ne h '{' (by decide),
    digit_ne h '-' (by decide), by simp [isWsChar, h1, h2, h3, h4],
    digit_ne h ']' (by decide), digit_ne h '}' (by decide),
    digit_ne h ',' (by decide), digit_ne h ':' (by decide)⟩

/-! ## `takeWhile`, `dropWhile`, `skipWs`. -/

theorem takeWhile_all_append {p : Char → Bool} :
    ∀ (A rest : List Char), A.all p = true → headNot p rest →
      (A ++ rest).takeWhile p = A ∧ (A ++ rest).dropWhile p = rest := by
  intro A
  induction A with
  | nil =>
    intro rest _ hr
    cases rest with
    | nil => simp
    | cons c r => simp_all [headNot, List.takeWhile, List.dropWhile]
  | cons a A ih =>
    intro rest hall hr
    simp only [List.all_cons, Bool.and_eq_true] at hall
    have := ih rest hall.2 hr
    simp [List.takeWhile_cons, List.dropWhile_cons, hall.1, this.1, this.2]

theorem skipWs_cons {c : Char} (l : List Char) (h : isWsChar c = false) :
    skipWs (c :: l) = c :: l := by
  simp [skipWs, List.dropWhile_cons, h]

theorem headNot_cons (p : Char → Bool) (c : Char) (l : List Char)
    (h : p c = false) : headNot p (c :: l) := h

/-! ## Decimal renderings have no leading zero. -/

theorem digitChar_ne_zero {n : Nat} (h1 : 1 ≤ n) (h2 : n < 10) :
    digitChar n ≠ '0' := by
  interval_cases n <;> decide

theorem serNatAux_head_ne_zero : ∀ (f n : Nat), n < f → 1 ≤ n →
    ∀ d t, serNatAux f n [] = d :: t → d ≠ '0' := by
  intro f
  induction f with
  | zero => intro n h; omega
  | succ f ih =>
    intro n hn h1 d t hdt
    by_cases h : n < 10
    · simp only [serNatAux, if_pos h] at hdt
      injection hdt with hd _
      exact hd ▸ digitChar_ne_zero h1 h
    · have hlt : n / 10 < f := by
        have : n / 10 < n := Nat.div_lt_self (by omega) (by omega)
        omega
      have hstep : serNatAux (f + 1) n [] =
          serNatAux f (n / 10) [] ++ [digitChar (n % 10)] := by
        simp only [serNatAux, h, if_false]
        exact serNatAux_append f (n / 10) [digitChar (n % 10)]
      have hne : serNatAux f (n / 10) [] ≠ [] := (serNat_spec f (n / 10) hlt).2.2
      obtain ⟨d', t', hdt'⟩ := List.exists_cons_of_ne_nil hne
      rw [hstep, hdt'] at hdt
      injection hdt with hd _
      exact hd ▸ ih (n / 10) hlt (by omega) d' t' hdt'

theorem serNat_head_ne_zero {n : Nat} (h1 : 1 ≤ n) {d : Char} {t : List Char}
    (hdt : serNat n = d :: t) : d ≠ '0' :=
  serNatAux_head_ne_zero (n + 1) n (Nat.lt_succ_self n) h1 d t hdt

/-- The decimal rendering of `m` followed by a non-digit never triggers the
parser's leading-zero rejection. -/
theorem serNat_no_leading_zero (m : Nat) (rest : List Char)
    (hrest : headNot Char.isDigit rest) (d : Char) (t : List Char)
    (hdt : serNat m = d :: t) :
    ¬(d = '0' ∧ startsDigit (t ++ rest) = true) := by
  rcases Nat.eq_zero_or_pos m with hm | hm
  · subst hm
    have h0 : serNat 0 = ['0'] := rfl
    rw [h0] at hdt
    injection hdt with hd ht
    rintro ⟨-, hsd⟩
    rw [← ht] at hsd
    cases rest with
    | nil => simp [startsDigit] at hsd
    | cons c r =>
      have hc : Char.isDigit c = false := hrest
      simp [startsDigit, hc] at hsd
  · rintro ⟨hd, -⟩
    exact serNat_head_ne_zero hm hdt hd

/-! ## Object spines assembled by repeated insertion.

`JSON.parse` fills an object with `obj[k] = v` member by member; on
duplicate-free member lists this reproduces the spine verbatim. -/

theorem cat_nil : ∀ o : JsonObj, o.cat .nil = o
  | .nil => rfl
  | .cons k v tl => by
    show JsonObj.cons k v (tl.cat .nil) = .cons k v tl
    rw [cat_nil tl]

theorem keys_cat : ∀ o1 o2 : JsonObj, (o1.cat o2).keys = o1.keys ++ o2.keys
  | .nil, o2 => rfl
  | .cons k v tl, o2 => by
    show k :: (tl.cat o2).keys = (k :: tl.keys) ++ o2.keys
    rw [keys_cat tl o2]
    rfl

theorem cat_assoc : ∀ o1 o2 o3 : JsonObj,
    (o1.cat o2).cat o3 = o1.cat (o2.cat o3)
  | .nil, _, _ => rfl
  | .cons k v tl, o2, o3 => by
    show JsonObj.cons k v ((tl.cat o2).cat o3) = .cons k v (tl.cat (o2.cat o3))
    rw [cat_assoc tl o2 o3]

theorem insert_of_not_mem : ∀ (o : JsonObj) (k : String) (v : Json),
    k ∉ o.keys → o.insert k v = o.cat (.cons k v .nil)
  | .nil, _, _, _ => rfl
  | .cons k' v' tl, k, v, h => by
    have h' : k ≠ k' ∧ k ∉ tl.keys := by
      simpa [JsonObj.keys] using h
    show (if k' = k then JsonObj.cons k' v tl else .cons k' v' (tl.insert k v)) =
      .cons k' v' (tl.cat (.cons k v .nil))
    rw [if_neg (fun he => h'.1 he.symm), insert_of_not_mem tl k v h'.2]

theorem foldl_insert_fresh : ∀ (ms : List (String × Json)) (o : JsonObj),
    (ms.map Prod.fst).Nodup → (∀ kv ∈ ms, kv.1 ∉ o.keys) →
    ms.foldl (fun o kv => o.insert kv.1 kv.2) o = o.cat (listToSpine ms) := by
  intro ms
  induction ms with
  | nil =>
    intro o _ _
    simp only [List.foldl_nil, listToSpine, cat_nil]
  | cons kv tl ih =>
    intro o hnd hfresh
    obtain ⟨k, v⟩ := kv
    simp only [List.map_cons, List.nodup_cons] at hnd
    have hk : k ∉ o.keys := hfresh (k, v) (List.mem_cons_self _ _)
    rw [List.foldl_cons]
    have hstep : o.insert (k, v).1 (k, v).2 = o.cat (.cons k v .nil) :=
      insert_of_not_mem o k v hk
    rw [hstep, ih (o.cat (.cons k v .nil)) hnd.2 ?_, cat_assoc]
    · rfl
    · intro kv' hkv'
      rw [keys_cat]
      simp only [List.mem_append]
      rintro (hin | hin)
      · exact hfresh kv' (List.mem_cons_of_mem _ hkv') hin
      · have hk' : kv'.1 = k := by simpa [JsonObj.keys] using hin
        apply hnd.1
        rw [← hk']
        exact List.mem_map_of_mem Prod.fst hkv'

theorem listToSpine_spineMembers : ∀ o : JsonObj, listToSpine (spineMembers o) = o
  | .nil => rfl
  | .cons k v tl => by
    show JsonObj.cons k v (listToSpine (spineMembers tl)) = .cons k v tl
    rw [listToSpine_spineMembers tl]

theorem spineMembers_map_fst : ∀ o : JsonObj,
    (spineMembers o).map Prod.fst = o.keys
  | .nil => rfl
  | .cons k v tl => by
    show k :: (spineMembers tl).map Prod.fst = k :: tl.keys
    rw [spineMembers_map_fst tl]

/-- On an object with duplicate-free keys, reassembling the member list by
repeated JavaScript insertion gives the object back. -/
theorem jsObjOfMembers_spine (xs : JsonObj) (h : xs.keys.Nodup) :
    jsObjOfMembers (spineMembers xs) = xs := by
  unfold jsObjOfMembers
  rw [foldl_insert_fresh (spineMembers xs) .nil
    (by rw [spineMembers_map_fst]; exact h)
    (by intro kv _; simp [JsonObj.keys])]
  show listToSpine (spineMembers xs) = xs
  exact listToSpine_spineMembers xs

/-! ## Round trip for string literals. -/

theorem parseStr_quote (r : List Char) : parseStr ('"' :: r) = some ([], r) := rfl

theorem parseStr_s_quote (r : List Char) :
    parseStr ('\\' :: '"' :: r) = (parseStr r).map (fun p => ('"' :: p.1, p.2)) := rfl

theorem parseStr_s_back (r : List Char) :
    parseStr ('\\' :: '\\' :: r) = (parseStr r).map (fun p => ('\\' :: p.1, p.2)) := rfl

theorem parseStr_s_n (r : List Char) :
    parseStr ('\\' :: 'n' :: r) = (parseStr r).map (fun p => ('\n' :: p.1, p.2)) := rfl

theorem parseStr_s_r (r : List Char) :
    parseStr ('\\' :: 'r' :: r) = (parseStr r).map (fun p => ('\r' :: p.1, p.2)) := rfl

theorem parseStr_s_t (r : List Char) :
    parseStr ('\\' :: 't' :: r) = (parseStr r).map (fun p => ('\t' :: p.1, p.2)) := rfl

theorem parseStr_s_b (r : List Char) :
    parseStr ('\\' :: 'b' :: r) = (parseStr r).map (fun p => ('\x08' :: p.1, p.2)) := rfl

theorem parseStr_s_f (r : List Char) :
    parseStr ('\\' :: 'f' :: r) = (parseStr r).map (fun p => ('\x0c' :: p.1, p.2)) := rfl

theorem parseStr_s_u (h1 h2 h3 h4 : Char) (r : List Char) :
    parseStr ('\\' :: 'u' :: h1 :: h2 :: h3 :: h4 :: r) =
      (if isHexChar h1 && isHexChar h2 && isHexChar h3 && isHexChar h4 then
        if ((hexVal h1 * 16 + hexVal h2) * 16 + hexVal h3) * 16 + hexVal h4 < 55296 ∨
            57343 < ((hexVal h1 * 16 + hexVal h2) * 16 + hexVal h3) * 16 + hexVal h4 then
          (parseStr r).map (fun p =>
            (Char.ofNat (((hexVal h1 * 16 + hexVal h2) * 16 + hexVal h3) * 16 + hexVal h4)
              :: p.1, p.2))
        else none
      else none) := rfl

set_option maxHeartbeats 1000000 in
theorem parseStr_cons_plain {c : Char} (hq : c ≠ '"') (hb : c ≠ '\\')
    (h32 : ¬ c.toNat < 32) (l : List Char) :
    parseStr (c :: l) = (parseStr l).map (fun p => (c :: p.1, p.2)) := by
  rw [parseStr.eq_def]
  split
  · rename_i heq; simp at heq
  · rename_i heq
    injection heq with hc _
    exact absurd hc hq
  · rename_i heq
    injection heq with hc _
    exact absurd hc hb
  · rename_i c' r heq
    injection heq with hc hl
    subst hc; subst hl
    simp [h32]

theorem parseStr_esc : ∀ (l rest : List Char),
    parseStr (escList l ++ '"' :: rest) = some (l, rest) := by
  intro l
  induction l with
  | nil => intro rest; simp only [escList, List.flatMap_nil, List.nil_append]; rfl
  | cons c tl ih =>
    intro rest
    have hesc : escList (c :: tl) = escChar c ++ escList tl := by
      simp [escList]
    rw [hesc, List.append_assoc]
    by_cases h1 : c = '"'
    · subst h1
      rw [show escChar '"' = ['\\', '"'] from rfl]
      simp only [List.cons_append, List.nil_append]
      rw [parseStr_s_quote, ih]; rfl
    · by_cases h2 : c = '\\'
      · subst h2
        rw [show escChar '\\' = ['\\', '\\'] from by simp [escChar]]
        simp only [List.cons_append, List.nil_append]
        rw [parseStr_s_back, ih]; rfl
      · by_cases h3 : c = '\n'
        · subst h3
          rw [show escChar '\n' = ['\\', 'n'] from by simp [escChar]]
          simp only [List.cons_append, List.nil_append]
          rw [parseStr_s_n, ih]; rfl
        · by_cases h4 : c = '\r'
          · subst h4
            rw [show escChar '\r' = ['\\', 'r'] from by simp [escChar]]
            simp only [List.cons_append, List.nil_append]
            rw [parseStr_s_r, ih]; rfl
          · by_cases h5 : c = '\t'
            · subst h5
              rw [show escChar '\t' = ['\\', 't'] from by simp [escChar]]
              simp only [List.cons_append, List.nil_append]
              rw [parseStr_s_t, ih]; rfl
            · by_cases h6 : c = '\x08'
              · subst h6
                rw [show escChar '\x08' = ['\\', 'b'] from by simp [escChar]]
                simp only [List.cons_append, List.nil_append]
                rw [parseStr_s_b, ih]; rfl
              · by_cases h7 : c = '\x0c'
                · subst h7
                  rw [show escChar '\x0c' = ['\\', 'f'] from by simp [escChar]]
                  simp only [List.cons_append, List.nil_append]
                  rw [parseStr_s_f, ih]; rfl
                · by_cases h8 : c.toNat < 32
                  · -- the `\u00xx` escape
                    have hhi : c.toNat / 16 < 16 := by omega
                    have hlo : c.toNat % 16 < 16 := by omega
                    have hdec :
                        Char.ofNat (((hexVal '0' * 16 + hexVal '0') * 16 +
                          hexVal (hexChar (c.toNat / 16))) * 16 +
                          hexVal (hexChar (c.toNat % 16))) = c := by
                      rw [hexVal_hexChar hhi, hexVal_hexChar hlo]
                      have hval : ((hexVal '0' * 16 + hexVal '0') * 16 + c.toNat / 16) * 16 +
                          c.toNat % 16 = c.toNat := by
                        rw [show hexVal '0' = 0 from rfl]
                        omega
                      rw [hval, Char.ofNat_toNat]
                    rw [show escChar c = ['\\', 'u', '0', '0',
                        hexChar (c.toNat / 16), hexChar (c.toNat % 16)] from by
                      simp only [escChar]
                      rw [if_neg h1, if_neg h2, if_neg h3, if_neg h4, if_neg h5,
                        if_neg h6, if_neg h7, if_pos h8]]
                    simp only [List.cons_append, List.nil_append]
                    rw [parseStr_s_u]
                    rw [if_pos (by
                      rw [hexChar_isHex hhi, hexChar_isHex hlo]
                      rfl)]
                    rw [if_pos (Or.inl (by
                      rw [hexVal_hexChar hhi, hexVal_hexChar hlo,
                        show hexVal '0' = 0 from rfl]
                      omega))]
                    rw [ih, hdec]; rfl
                  · rw [show escChar c = [c] from by
                      simp only [escChar]
                      rw [if_neg h1, if_neg h2, if_neg h3, if_neg h4, if_neg h5,
                        if_neg h6, if_neg h7, if_neg h8]]
                    simp only [List.cons_append, List.nil_append]
                    rw [parseStr_cons_plain h1 h2 h8, ih]; rfl

/-! ## Shapes of serialized values. -/

theorem jsizeJ_pos (v : Json) : 1 ≤ jsizeJ v := by
  cases v <;> simp [jsizeJ]

theorem jsizeL_pos (xs : JsonList) : 1 ≤ jsizeL xs := by
  cases xs <;> simp [jsizeL]

theorem jsizeO_pos (xs : JsonObj) : 1 ≤ jsizeO xs := by
  cases xs <;> simp [jsizeO]

/-- Every serialized value starts with a character that is not whitespace
and is not a closing bracket. -/
theorem serJ_cons (v : Json) :
    ∃ c t, serJ v = c :: t ∧ isWsChar c = false ∧ c ≠ ']' ∧ c ≠ '}' := by
  cases v with
  | null => exact ⟨'n', _, rfl, by decide, by decide, by decide⟩
  | bool b =>
    cases b
    · exact ⟨'f', _, rfl, by decide, by decide, by decide⟩
    · exact ⟨'t', _, rfl, by decide, by decide, by decide⟩
  | num n =>
    cases n with
    | ofNat m =>
      obtain ⟨d, t, hdt, hdig⟩ := serNat_cons m
      have hf := digit_facts hdig
      exact ⟨d, t, by simp [serJ, serInt, hdt], hf.2.2.2.2.2.2.2.1,
        hf.2.2.2.2.2.2.2.2.1, hf.2.2.2.2.2.2.2.2.2.1⟩
    | negSucc m =>
      exact ⟨'-', serNat (m + 1), rfl, by decide, by decide, by decide⟩
  | str s => exact ⟨'"', _, rfl, by decide, by decide, by decide⟩
  | arr xs => exact ⟨'[', _, rfl, by decide, by decide, by decide⟩
  | obj xs => exact ⟨'{', _, rfl, by decide, by decide, by decide⟩

theorem serArr_cons_shape (y : Json) (tl : JsonList) :
    ∃ t', serArr (.cons y tl) = serJ y ++ t' := by
  cases tl with
  | nil => exact ⟨[], by simp [serArr]⟩
  | cons w tl2 => exact ⟨',' :: serArr (.cons w tl2), by simp [serArr]⟩

/-! ## Step lemmas for the parser. -/

theorem pv_cons (fuel : Nat) (c : Char) (r : List Char) :
    parseValue (fuel + 1) (c :: r) =
      (if c = 'n' then
        match r with
        | 'u' :: 'l' :: 'l' :: r' => some (.null, r')
        | _ => none
      else if c = 't' then
        match r with
        | 'r' :: 'u' :: 'e' :: r' => some (.bool true, r')
        | _ => none
      else if c = 'f' then
        match r with
        | 'a' :: 'l' :: 's' :: 'e' :: r' => some (.bool false, r')
        | _ => none
      else if c = '"' then
        match parseStr r with
        | some (cs, r') => some (.str (String.mk cs), r')
        | none => none
      else if c = '[' then
        match skipWs r with
        | [] => none
        | d :: r' =>
          if d = ']' then some (.arr .nil, r')
          else
            match parseElems fuel (d :: r') with
            | some (xs, r'') => some (.arr xs, r'')
            | none => none
      else if c = '{' then
        match skipWs r with
        | [] => none
        | d :: r' =>
          if d = '}' then some (.obj .nil, r')
          else
            match parseMembers fuel (d :: r') with
            | some (ms, r'') => some (.obj (jsObjOfMembers ms), r'')
            | none => none
      else if c = '-' then
        match r with
        | [] => none
        | d :: r' =>
          if d.isDigit then
            if d = '0' ∧ startsDigit r' = true then none
            else if digitsVal ((d :: r').takeWhile Char.isDigit) ≤ maxExactJsonNat then
              some (.num (Int.negOfNat (digitsVal ((d :: r').takeWhile Char.isDigit))),
                (d :: r').dropWhile Char.isDigit)
            else none
          else none
      else if c.isDigit then
        if c = '0' ∧ startsDigit r = true then none
        else if digitsVal ((c :: r).takeWhile Char.isDigit) ≤ maxExactJsonNat then
          some (.num (Int.ofNat (digitsVal ((c :: r).takeWhile Char.isDigit))),
            (c :: r).dropWhile Char.isDigit)
        else none
      else none) := rfl

theorem pe_succ (fuel : Nat) (input : List Char) :
    parseElems (fuel + 1) input =
      (match parseValue fuel (skipWs input) with
      | none => none
      | some (v, r) =>
        match skipWs r with
        | [] => none
        | d :: r' =>
          if d = ',' then
            match parseElems fuel r' with
            | some (tl, r'') => some (.cons v tl, r'')
            | none => none
          else if d = ']' then some (.cons v .nil, r')
          else none) := rfl

theorem pm_succ (fuel : Nat) (input : List Char) :
    parseMembers (fuel + 1) input =
      (match skipWs input with
      | '"' :: r =>
        (match parseStr r with
         | none => none
         | some (k, r1) =>
           match skipWs r1 with
           | ':' :: r2 =>
             (match parseValue fuel (skipWs r2) with
              | none => none
              | some (v, r3) =>
                match skipWs r3 with
                | [] => none
                | d :: r4 =>
                  if d = ',' then
                    match parseMembers fuel r4 with
                    | some (tl, r5) => some ((String.mk k, v) :: tl, r5)
                    | none => none
                  else if d = '}' then some ([(String.mk k, v)], r4)
                  else none)
           | _ => none)
      | _ => none) := rfl

/-! ## The round trip: parsing a serialized value gives it back. -/

theorem parse_ser_all : ∀ fuel : Nat,
    (∀ v rest, Json.wf v → jsizeJ v ≤ fuel → headNot Char.isDigit rest →
       parseValue fuel (serJ v ++ rest) = some (v, rest)) ∧
    (∀ xs rest, JsonList.wf xs → xs ≠ JsonList.nil → jsizeL xs ≤ fuel →
       parseElems fuel (serArr xs ++ ']' :: rest) = some (xs, rest)) ∧
    (∀ xs rest, JsonObj.wf xs → xs ≠ JsonObj.nil → jsizeO xs ≤ fuel →
       parseMembers fuel (serObj xs ++ '}' :: rest) = some (spineMembers xs, rest)) := by
  intro fuel
  induction fuel with
  | zero =>
    refine ⟨?_, ?_, ?_⟩
    · intro v rest _ hsz _; have := jsizeJ_pos v; omega
    · intro xs rest _ _ hsz; have := jsizeL_pos xs; omega
    · intro xs rest _ _ hsz; have := jsizeO_pos xs; omega
  | succ fuel ih =>
    obtain ⟨IHv, IHe, IHm⟩ := ih
    refine ⟨?_, ?_, ?_⟩
    · -- parseValue on a serialized value
      intro v rest hwf hsz hrest
      cases v with
      | null => rfl
      | bool b => cases b <;> rfl
      | num n =>
        cases n with
        | ofNat m =>
          obtain ⟨d, t, hdt, hdig⟩ := serNat_cons m
          have hf := digit_facts hdig
          have hbound : m ≤ maxExactJsonNat := by
            have hb : (Int.ofNat m).natAbs ≤ maxExactJsonNat := hwf
            simpa using hb
          have hlead := serNat_no_leading_zero m rest hrest d t hdt
          have hser : serJ (.num (.ofNat m)) ++ rest = d :: (t ++ rest) := by
            show serNat m ++ rest = d :: (t ++ rest)
            rw [hdt]; rfl
          rw [hser, pv_cons, if_neg hf.1, if_neg hf.2.1, if_neg hf.2.2.1,
            if_neg hf.2.2.2.1, if_neg hf.2.2.2.2.1, if_neg hf.2.2.2.2.2.1,
            if_neg hf.2.2.2.2.2.2.1, if_pos hdig, if_neg hlead]
          have heq : d :: (t ++ rest) = serNat m ++ rest := by rw [hdt]; rfl
          have htw := takeWhile_all_append (serNat m) rest (serNat_all_digit m) hrest
          rw [heq, htw.1, htw.2, digitsVal_serNat, if_pos hbound]
        | negSucc m =>
          obtain ⟨d, t, hdt, hdig⟩ := serNat_cons (m + 1)
          have hbound : m + 1 ≤ maxExactJsonNat := by
            have hb : (Int.negSucc m).natAbs ≤ maxExactJsonNat := hwf
            simpa using hb
          have hlead : ¬(d = '0' ∧ startsDigit (t ++ rest) = true) :=
            fun hc => serNat_head_ne_zero (Nat.succ_pos m) hdt hc.1
          have hser : serJ (.num (.negSucc m)) ++ rest =
              '-' :: (serNat (m + 1) ++ rest) := rfl
          have hcons : serNat (m + 1) ++ rest = d :: (t ++ rest) := by rw [hdt]; rfl
          have htw := takeWhile_all_append (serNat (m + 1)) rest
            (serNat_all_digit (m + 1)) hrest
          rw [hser, hcons, pv_cons]
          simp only [if_neg (by decide : ¬('-' : Char) = 'n'),
            if_neg (by decide : ¬('-' : Char) = 't'),
            if_neg (by decide : ¬('-' : Char) = 'f'),
            if_neg (by decide : ¬('-' : Char) = '"'),
            if_neg (by decide : ¬('-' : Char) = '['),
            if_neg (by decide : ¬('-' : Char) = '{'),
            if_pos (rfl : ('-' : Char) = '-')]
          rw [if_pos hdig, if_neg hlead, ← hcons, htw.1, htw.2, digitsVal_serNat,
            if_pos hbound]
          rfl
      | str s =>
        have hser : serJ (.str s) ++ rest =
            '"' :: (escList s.data ++ '"' :: rest) := by
          simp [serJ]
        rw [hser, pv_cons]
        simp only [if_neg (by decide : ¬('"' : Char) = 'n'),
          if_neg (by decide : ¬('"' : Char) = 't'),
          if_neg (by decide : ¬('"' : Char) = 'f'),
          if_pos (rfl : ('"' : Char) = '"')]
        rw [parseStr_esc]
        rfl
      | arr xs =>
        cases xs with
        | nil =>
          simp only [serJ, serArr, List.cons_append, List.nil_append]
          rfl
        | cons y tl =>
          obtain ⟨c, t, hct, hws, hnb, _⟩ := serJ_cons y
          obtain ⟨t', hshape⟩ := serArr_cons_shape y tl
          have hser : serJ (.arr (.cons y tl)) ++ rest =
              '[' :: (serArr (.cons y tl) ++ ']' :: rest) := by
            simp [serJ]
          have hcons : serArr (.cons y tl) ++ ']' :: rest =
              c :: (t ++ t' ++ ']' :: rest) := by
            rw [hshape, hct]; simp
          have hskip : skipWs (serArr (.cons y tl) ++ ']' :: rest) =
              serArr (.cons y tl) ++ ']' :: rest := by
            rw [hcons]; exact skipWs_cons _ hws
          have hwl : JsonList.wf (.cons y tl) := by
            simpa only [Json.wf] using hwf
          have hIH : parseElems fuel (serArr (.cons y tl) ++ ']' :: rest) =
              some (.cons y tl, rest) := by
            refine IHe _ _ hwl (by simp) ?_
            simp only [jsizeJ, jsizeL] at hsz ⊢
            omega
          rw [hser, pv_cons]
          simp only [if_neg (by decide : ¬('[' : Char) = 'n'),
            if_neg (by decide : ¬('[' : Char) = 't'),
            if_neg (by decide : ¬('[' : Char) = 'f'),
            if_neg (by decide : ¬('[' : Char) = '"'),
            if_pos (rfl : ('[' : Char) = '[')]
          rw [hskip, hcons]
          simp only [if_neg hnb]
          rw [← hcons, hIH]
          rfl
      | obj xs =>
        cases xs with
        | nil =>
          simp only [serJ, serObj, List.cons_append, List.nil_append]
          rfl
        | cons k y tl =>
          have hser : serJ (.obj (.cons k y tl)) ++ rest =
              '{' :: (serObj (.cons k y tl) ++ '}' :: rest) := by
            simp [serJ]
          have hB : ∃ B, serObj (.cons k y tl) = '"' :: B := by
            cases tl <;> exact ⟨_, rfl⟩
          obtain ⟨B, hB⟩ := hB
          have hL : serObj (.cons k y tl) ++ '}' :: rest =
              '"' :: (B ++ '}' :: rest) := by rw [hB]; rfl
          have hwo : (JsonObj.cons k y tl).keys.Nodup ∧ JsonObj.wf (.cons k y tl) := by
            simpa only [Json.wf] using hwf
          have hIH : parseMembers fuel (serObj (.cons k y tl) ++ '}' :: rest) =
              some (spineMembers (.cons k y tl), rest) := by
            refine IHm _ _ hwo.2 (by simp) ?_
            simp only [jsizeJ, jsizeO] at hsz ⊢
            omega
          rw [hser, pv_cons]
          simp only [if_neg (by decide : ¬('{' : Char) = 'n'),
            if_neg (by decide : ¬('{' : Char) = 't'),
            if_neg (by decide : ¬('{' : Char) = 'f'),
            if_neg (by decide : ¬('{' : Char) = '"'),
            if_neg (by decide : ¬('{' : Char) = '['),
            if_pos (rfl : ('{' : Char) = '{')]
          rw [hL, skipWs_cons _ (by decide)]
          simp only [if_neg (by decide : ¬('"' : Char) = '}')]
          rw [← hL, hIH]
          show some (Json.obj (jsObjOfMembers (spineMembers (.cons k y tl))), rest) =
            some (.obj (.cons k y tl), rest)
          rw [jsObjOfMembers_spine _ hwo.1]
    · -- parseElems on serialized elements
      intro xs rest hwf hne hsz
      cases xs with
      | nil => exact absurd rfl hne
      | cons v tl =>
        obtain ⟨hwv, hwtl⟩ : Json.wf v ∧ JsonList.wf tl := by
          simpa only [JsonList.wf] using hwf
        obtain ⟨c, t, hct, hws, _, _⟩ := serJ_cons v
        cases tl with
        | nil =>
          have hin : serArr (.cons v .nil) ++ ']' :: rest =
              serJ v ++ ']' :: rest := by simp [serArr]
          have hskip : skipWs (serJ v ++ ']' :: rest) = serJ v ++ ']' :: rest := by
            rw [hct]; exact skipWs_cons _ hws
          have hIHv : parseValue fuel (serJ v ++ ']' :: rest) =
              some (v, ']' :: rest) := by
            refine IHv v (']' :: rest) hwv ?_ (headNot_cons _ _ _ (by decide))
            simp only [jsizeL] at hsz
            have := jsizeL_pos JsonList.nil
            omega
          rw [hin, pe_succ, hskip, hIHv]
          rfl
        | cons w tl2 =>
          have hin : serArr (.cons v (.cons w tl2)) ++ ']' :: rest =
              serJ v ++ ',' :: (serArr (.cons w tl2) ++ ']' :: rest) := by
            simp [serArr]
          have hskip : skipWs (serJ v ++ ',' :: (serArr (.cons w tl2) ++ ']' :: rest)) =
              serJ v ++ ',' :: (serArr (.cons w tl2) ++ ']' :: rest) := by
            rw [hct]
            exact skipWs_cons _ hws
          have hIHv : parseValue fuel
              (serJ v ++ ',' :: (serArr (.cons w tl2) ++ ']' :: rest)) =
              some (v, ',' :: (serArr (.cons w tl2) ++ ']' :: rest)) := by
            refine IHv v _ hwv ?_ (headNot_cons _ _ _ (by decide))
            simp only [jsizeL] at hsz
            have := jsizeL_pos tl2
            have := jsizeJ_pos w
            omega
          have hIHe : parseElems fuel (serArr (.cons w tl2) ++ ']' :: rest) =
              some (.cons w tl2, rest) := by
            refine IHe _ _ hwtl (by simp) ?_
            simp only [jsizeL] at hsz ⊢
            have := jsizeJ_pos v
            omega
          have hsk2 : skipWs (',' :: (serArr (.cons w tl2) ++ ']' :: rest)) =
              ',' :: (serArr (.cons w tl2) ++ ']' :: rest) :=
            skipWs_cons _ (by decide)
          rw [hin, pe_succ, hskip, hIHv]
          simp only [hsk2, reduceIte, hIHe]
    · -- parseMembers on serialized members
      intro xs rest hwf hne hsz
      cases xs with
      | nil => exact absurd rfl hne
      | cons k v tl =>
        obtain ⟨hwv, hwtl⟩ : Json.wf v ∧ JsonObj.wf tl := by
          simpa only [JsonObj.wf] using hwf
        obtain ⟨c, t, hct, hws, _, _⟩ := serJ_cons v
        cases tl with
        | nil =>
          have hin : serObj (.cons k v .nil) ++ '}' :: rest =
              '"' :: (escList k.data ++ '"' :: (':' :: (serJ v ++ '}' :: rest))) := by
            simp [serObj]
          have hskipv : skipWs (serJ v ++ '}' :: rest) = serJ v ++ '}' :: rest := by
            rw [hct]; exact skipWs_cons _ hws
          have hIHv : parseValue fuel (serJ v ++ '}' :: rest) =
              some (v, '}' :: rest) := by
            refine IHv v _ hwv ?_ (headNot_cons _ _ _ (by decide))
            simp only [jsizeO] at hsz
            have := jsizeO_pos JsonObj.nil
            omega
          have hs1 : skipWs ('"' :: (escList k.data ++ '"' ::
              (':' :: (serJ v ++ '}' :: rest)))) =
              '"' :: (escList k.data ++ '"' :: (':' :: (serJ v ++ '}' :: rest))) :=
            skipWs_cons _ (by decide)
          have hs2 : skipWs (':' :: (serJ v ++ '}' :: rest)) =
              ':' :: (serJ v ++ '}' :: rest) := skipWs_cons _ (by decide)
          rw [hin, pm_succ]
          simp only [hs1, parseStr_esc, hs2, hskipv, hIHv]
          rfl
        | cons k2 w tl2 =>
          have hin : serObj (.cons k v (.cons k2 w tl2)) ++ '}' :: rest =
              '"' :: (escList k.data ++ '"' ::
                (':' :: (serJ v ++ ',' :: (serObj (.cons k2 w tl2) ++ '}' :: rest)))) := by
            simp [serObj]
          have hskipv : skipWs (serJ v ++ ',' :: (serObj (.cons k2 w tl2) ++ '}' :: rest)) =
              serJ v ++ ',' :: (serObj (.cons k2 w tl2) ++ '}' :: rest) := by
            rw [hct]; exact skipWs_cons _ hws
          have hIHv : parseValue fuel
              (serJ v ++ ',' :: (serObj (.cons k2 w tl2) ++ '}' :: rest)) =
              some (v, ',' :: (serObj (.cons k2 w tl2) ++ '}' :: rest)) := by
            refine IHv v _ hwv ?_ (headNot_cons _ _ _ (by decide))
            simp only [jsizeO] at hsz
            have := jsizeO_pos tl2
            have := jsizeJ_pos w
            omega
          have hIHm : parseMembers fuel (serObj (.cons k2 w tl2) ++ '}' :: rest) =
              some (spineMembers (.cons k2 w tl2), rest) := by
            refine IHm _ _ hwtl (by simp) ?_
            simp only [jsizeO] at hsz ⊢
            have := jsizeJ_pos v
            omega
          have hs1 : skipWs ('"' :: (escList k.data ++ '"' ::
              (':' :: (serJ v ++ ',' :: (serObj (.cons k2 w tl2) ++ '}' :: rest))))) =
              '"' :: (escList k.data ++ '"' ::
                (':' :: (serJ v ++ ',' :: (serObj (.cons k2 w tl2) ++ '}' :: rest)))) :=
            skipWs_cons _ (by decide)
          have hs2 : skipWs (':' :: (serJ v ++ ',' :: (serObj (.cons k2 w tl2) ++ '}' :: rest))) =
              ':' :: (serJ v ++ ',' :: (serObj (.cons k2 w tl2) ++ '}' :: rest)) :=
            skipWs_cons _ (by decide)
          have hs3 : skipWs (',' :: (serObj (.cons k2 w tl2) ++ '}' :: rest)) =
              ',' :: (serObj (.cons k2 w tl2) ++ '}' :: rest) :=
            skipWs_cons _ (by decide)
          rw [hin, pm_succ]
          simp only [hs1, parseStr_esc, hs2, hskipv, hIHv, hs3, reduceIte, hIHm,
            spineMembers]

/-! ## Injectivity of the serializer. -/

theorem serJ_inj {a b : Json} (hwa : a.wf) (hwb : b.wf) (h : serJ a = serJ b) :
    a = b := by
  have ha := (parse_ser_all (jsizeJ a + jsizeJ b)).1 a [] hwa (by omega) trivial
  have hb := (parse_ser_all (jsizeJ a + jsizeJ b)).1 b [] hwb (by omega) trivial
  rw [List.append_nil] at ha hb
  rw [h] at ha
  have hab := ha.symm.trans hb
  simp only [Option.some.injEq, Prod.mk.injEq] at hab
  exact hab.1

theorem serializeJson_inj {a b : Json} (hwa : a.wf) (hwb : b.wf)
    (h : serializeJson a = serializeJson b) : a = b :=
  serJ_inj hwa hwb (congrArg String.data h)

/-! ## Keys of JavaScript-style object insertion (for the example-body
synthesizer). -/

theorem keys_insert : ∀ (o : JsonObj) (k : String) (v : Json),
    (o.insert k v).keys = if k ∈ o.keys then o.keys else o.keys ++ [k]
  | .nil, k, v => by simp [JsonObj.insert, JsonObj.keys]
  | .cons k' v' tl, k, v => by
    have ih := keys_insert tl k v
    by_cases hk : k' = k
    · subst hk
      simp [JsonObj.insert, JsonObj.keys]
    · simp only [JsonObj.insert, if_neg hk, JsonObj.keys, ih]
      have hiff : (k ∈ k' :: tl.keys) ↔ (k ∈ tl.keys) := by
        constructor
        · intro hmem
          rcases List.mem_cons.mp hmem with h1 | h1
          · exact absurd h1.symm hk
          · exact h1
        · exact fun h1 => List.mem_cons_of_mem _ h1
      by_cases hmem : k ∈ tl.keys
      · rw [if_pos hmem, if_pos (hiff.mpr hmem)]
      · rw [if_neg hmem, if_neg (fun h1 => hmem (hiff.mp h1))]
        simp
termination_by structural o => o

theorem mem_keys_insert_self (o : JsonObj) (k : String) (v : Json) :
    k ∈ (o.insert k v).keys := by
  rw [keys_insert]
  by_cases h : k ∈ o.keys <;> simp [h]

theorem mem_keys_insert_of_mem (o : JsonObj) (k k' : String) (v : Json)
    (h : k' ∈ o.keys) : k' ∈ (o.insert k v).keys := by
  rw [keys_insert]
  by_cases hk : k ∈ o.keys <;> simp [hk, h]

theorem mem_keys_insert_elim (o : JsonObj) (k k' : String) (v : Json)
    (h : k' ∈ (o.insert k v).keys) : k' ∈ o.keys ∨ k' = k := by
  rw [keys_insert] at h
  by_cases hk : k ∈ o.keys
  · rw [if_pos hk] at h; exact .inl h
  · rw [if_neg hk] at h
    rcases List.mem_append.mp h with h1 | h1
    · exact .inl h1
    · exact .inr (List.mem_singleton.mp h1)

theorem length_keys_insert (o : JsonObj) (k : String) (v : Json) :
    (o.insert k v).keys.length ≤ o.keys.length + 1 := by
  rw [keys_insert]
  by_cases h : k ∈ o.keys <;> simp [h]

theorem nodup_keys_insert (o : JsonObj) (k : String) (v : Json)
    (h : o.keys.Nodup) : (o.insert k v).keys.Nodup := by
  rw [keys_insert]
  by_cases hk : k ∈ o.keys
  · rwa [if_pos hk]
  · rw [if_neg hk]
    simpa [List.nodup_append] using ⟨h, hk⟩

/-! ## The key-collection fold of the example-body synthesizer. -/

theorem fold_keys_mem (props : List (String × Schema)) (g : Schema → Json) :
    ∀ (l : List String) (o : JsonObj) (k : String),
      (k ∈ o.keys ∨ (k ∈ l ∧ (propsLookup props k).isSome)) →
      k ∈ (l.foldl (fun o k =>
        match propsLookup props k with
        | some sub => o.insert k (g sub)
        | none => o) o).keys := by
  intro l
  induction l with
  | nil =>
    intro o k h
    rcases h with hmem | ⟨hin, _⟩
    · simpa using hmem
    · simp at hin
  | cons a l ih =>
    intro o k h
    simp only [List.foldl_cons]
    rcases h with hmem | ⟨hin, hlk⟩
    · apply ih; left
      cases hpl : propsLookup props a with
      | some sub =>
        simp only [hpl]
        exact mem_keys_insert_of_mem _ _ _ _ hmem
      | none => simpa [hpl] using hmem
    · rcases List.mem_cons.mp hin with rfl | hin'
      · cases hpl : propsLookup props k with
        | some sub =>
          apply ih; left
          simp only [hpl]
          exact mem_keys_insert_self _ _ _
        | none => rw [hpl] at hlk; simp at hlk
      · exact ih _ _ (.inr ⟨hin', hlk⟩)

theorem fold_keys_sub (props : List (String × Schema)) (g : Schema → Json) :
    ∀ (l : List String) (o : JsonObj) (x : String),
      x ∈ (l.foldl (fun o k =>
        match propsLookup props k with
        | some sub => o.insert k (g sub)
        | none => o) o).keys →
      x ∈ o.keys ∨ x ∈ l := by
  intro l
  induction l with
  | nil =>
    intro o x h
    simp only [List.foldl_nil] at h
    exact .inl h
  | cons a l ih =>
    intro o x h
    simp only [List.foldl_cons] at h
    rcases ih _ _ h with h1 | h1
    · cases hpl : propsLookup props a with
      | some sub =>
        rw [hpl] at h1
        rcases mem_keys_insert_elim _ _ _ _ h1 with h2 | h2
        · exact .inl h2
        · exact .inr (h2 ▸ List.mem_cons_self a l)
      | none => rw [hpl] at h1; exact .inl h1
    · exact .inr (List.mem_cons_of_mem _ h1)

theorem fold_keys_length (props : List (String × Schema)) (g : Schema → Json) :
    ∀ (l : List String) (o : JsonObj),
      (l.foldl (fun o k =>
        match propsLookup props k with
        | some sub => o.insert k (g sub)
        | none => o) o).keys.length ≤ o.keys.length + l.length := by
  intro l
  induction l with
  | nil => intro o; simp
  | cons a l ih =>
    intro o
    simp only [List.foldl_cons]
    cases hpl : propsLookup props a with
    | some sub =>
      calc _ ≤ (o.insert a (g sub)).keys.length + l.length := ih _
        _ ≤ o.keys.length + 1 + l.length :=
          Nat.add_le_add_right (length_keys_insert _ _ _) _
        _ = o.keys.length + (a :: l).length := by
          simp only [List.length_cons]; omega
    | none =>
      calc _ ≤ o.keys.length + l.length := ih _
        _ ≤ o.keys.length + (a :: l).length := by
          simp only [List.length_cons]; omega

theorem fold_keys_nodup (props : List (String × Schema)) (g : Schema → Json) :
    ∀ (l : List String) (o : JsonObj), o.keys.Nodup →
      (l.foldl (fun o k =>
        match propsLookup props k with
        | some sub => o.insert k (g sub)
        | none => o) o).keys.Nodup := by
  intro l
  induction l with
  | nil => intro o h; simpa using h
  | cons a l ih =>
    intro o h
    simp only [List.foldl_cons]
    cases hpl : propsLookup props a with
    | some sub => exact ih _ (nodup_keys_insert _ _ _ h)
    | none => exact ih _ h

/-! ## Every value `parseJson` produces is well-formed. -/

theorem foldl_insert_keys_nodup : ∀ (ms : List (String × Json)) (o : JsonObj),
    o.keys.Nodup →
    (ms.foldl (fun o kv => o.insert kv.1 kv.2) o).keys.Nodup := by
  intro ms
  induction ms with
  | nil => intro o h; simpa using h
  | cons kv tl ih =>
    intro o h
    rw [List.foldl_cons]
    exact ih _ (nodup_keys_insert o kv.1 kv.2 h)

theorem jsObjOfMembers_keys_nodup (ms : List (String × Json)) :
    (jsObjOfMembers ms).keys.Nodup :=
  foldl_insert_keys_nodup ms .nil (by simp [JsonObj.keys])

theorem insert_wf : ∀ (o : JsonObj) (k : String) (v : Json),
    o.wf → v.wf → (o.insert k v).wf
  | .nil, _, _, _, hv => ⟨hv, trivial⟩
  | .cons k' v' tl, k, v, ho, hv => by
    obtain ⟨hv', htl⟩ : Json.wf v' ∧ JsonObj.wf tl := ho
    show JsonObj.wf (if k' = k then .cons k' v tl else .cons k' v' (tl.insert k v))
    by_cases hk : k' = k
    · rw [if_pos hk]
      exact ⟨hv, htl⟩
    · rw [if_neg hk]
      exact ⟨hv', insert_wf tl k v htl hv⟩

theorem foldl_insert_wf : ∀ (ms : List (String × Json)) (o : JsonObj),
    o.wf → (∀ kv ∈ ms, Json.wf kv.2) →
    (ms.foldl (fun o kv => o.insert kv.1 kv.2) o).wf := by
  intro ms
  induction ms with
  | nil => intro o h _; simpa using h
  | cons kv tl ih =>
    intro o ho hms
    rw [List.foldl_cons]
    exact ih _ (insert_wf o kv.1 kv.2 ho (hms kv (List.mem_cons_self _ _)))
      (fun kv' h' => hms kv' (List.mem_cons_of_mem _ h'))

theorem jsObjOfMembers_wf (ms : List (String × Json))
    (h : ∀ kv ∈ ms, Json.wf kv.2) : (jsObjOfMembers ms).wf :=
  foldl_insert_wf ms .nil trivial h

set_option maxHeartbeats 1000000 in
theorem parse_wf : ∀ fuel : Nat,
    (∀ input v rest, parseValue fuel input = some (v, rest) → v.wf) ∧
    (∀ input xs rest, parseElems fuel input = some (xs, rest) → xs.wf) ∧
    (∀ input ms rest, parseMembers fuel input = some (ms, rest) →
       ∀ kv ∈ ms, Json.wf kv.2) := by
  intro fuel
  induction fuel with
  | zero =>
    refine ⟨?_, ?_, ?_⟩
    · intro input v rest h; exact Option.noConfusion h
    · intro input xs rest h; exact Option.noConfusion h
    · intro input ms rest h; exact Option.noConfusion h
  | succ fuel ih =>
    obtain ⟨IHv, IHe, IHm⟩ := ih
    refine ⟨?_, ?_, ?_⟩
    · intro input v rest h
      cases input with
      | nil => exact Option.noConfusion h
      | cons c r =>
        rw [pv_cons] at h
        by_cases h1 : c = 'n'
        · rw [if_pos h1] at h
          split at h <;> try exact Option.noConfusion h
          simp only [Option.some.injEq, Prod.mk.injEq] at h
          exact h.1 ▸ (trivial : Json.wf Json.null)
        · rw [if_neg h1] at h
          by_cases h2 : c = 't'
          · rw [if_pos h2] at h
            split at h <;> try exact Option.noConfusion h
            simp only [Option.some.injEq, Prod.mk.injEq] at h
            exact h.1 ▸ (trivial : Json.wf (Json.bool true))
          · rw [if_neg h2] at h
            by_cases h3 : c = 'f'
            · rw [if_pos h3] at h
              split at h <;> try exact Option.noConfusion h
              simp only [Option.some.injEq, Prod.mk.injEq] at h
              exact h.1 ▸ (trivial : Json.wf (Json.bool false))
            · rw [if_neg h3] at h
              by_cases h4 : c = '"'
              · rw [if_pos h4] at h
                split at h <;> try exact Option.noConfusion h
                simp only [Option.some.injEq, Prod.mk.injEq] at h
                exact h.1 ▸ (trivial : Json.wf (.str _))
              · rw [if_neg h4] at h
                by_cases h5 : c = '['
                · rw [if_pos h5] at h
                  split at h <;> try exact Option.noConfusion h
                  split at h
                  · simp only [Option.some.injEq, Prod.mk.injEq] at h
                    exact h.1 ▸ (trivial : Json.wf (.arr .nil))
                  · split at h <;> try exact Option.noConfusion h
                    rename_i xs r'' heq
                    simp only [Option.some.injEq, Prod.mk.injEq] at h
                    exact h.1 ▸ (show Json.wf (.arr xs) from IHe _ _ _ heq)
                · rw [if_neg h5] at h
                  by_cases h6 : c = '{'
                  · rw [if_pos h6] at h
                    split at h <;> try exact Option.noConfusion h
                    split at h
                    · simp only [Option.some.injEq, Prod.mk.injEq] at h
                      exact h.1 ▸
                        (show Json.wf (.obj .nil) from ⟨List.nodup_nil, trivial⟩)
                    · split at h <;> try exact Option.noConfusion h
                      rename_i ms r'' heq
                      simp only [Option.some.injEq, Prod.mk.injEq] at h
                      exact h.1 ▸ (show Json.wf (.obj (jsObjOfMembers ms)) from
                        ⟨jsObjOfMembers_keys_nodup ms,
                          jsObjOfMembers_wf ms (IHm _ _ _ heq)⟩)
                  · rw [if_neg h6] at h
                    by_cases h7 : c = '-'
                    · rw [if_pos h7] at h
                      split at h <;> try exact Option.noConfusion h
                      rename_i d r'
                      split at h <;> try exact Option.noConfusion h
                      split at h <;> try exact Option.noConfusion h
                      split at h <;> try exact Option.noConfusion h
                      rename_i hb
                      simp only [Option.some.injEq, Prod.mk.injEq] at h
                      have habs : ∀ x : Nat, (Int.negOfNat x).natAbs = x := by
                        intro x; cases x <;> rfl
                      have hwfn : Json.wf (.num (Int.negOfNat
                          (digitsVal ((d :: r').takeWhile Char.isDigit)))) := by
                        show (Int.negOfNat
                            (digitsVal ((d :: r').takeWhile Char.isDigit))).natAbs ≤
                          maxExactJsonNat
                        rw [habs]
                        exact hb
                      exact h.1 ▸ hwfn
                    · rw [if_neg h7] at h
                      split at h <;> try exact Option.noConfusion h
                      split at h <;> try exact Option.noConfusion h
                      split at h <;> try exact Option.noConfusion h
                      rename_i hb
                      simp only [Option.some.injEq, Prod.mk.injEq] at h
                      have hwfn : Json.wf (.num (Int.ofNat
                          (digitsVal ((c :: r).takeWhile Char.isDigit)))) := by
                        show (Int.ofNat
                            (digitsVal ((c :: r).takeWhile Char.isDigit))).natAbs ≤
                          maxExactJsonNat
                        simpa using hb
                      exact h.1 ▸ hwfn
    · intro input xs rest h
      rw [pe_succ] at h
      split at h <;> try exact Option.noConfusion h
      rename_i v r heq
      split at h <;> try exact Option.noConfusion h
      rename_i d r'
      split at h
      · split at h <;> try exact Option.noConfusion h
        rename_i tl r'' heq2
        simp only [Option.some.injEq, Prod.mk.injEq] at h
        exact h.1 ▸ (show JsonList.wf (.cons v tl) from
          ⟨IHv _ _ _ heq, IHe _ _ _ heq2⟩)
      · split at h <;> try exact Option.noConfusion h
        simp only [Option.some.injEq, Prod.mk.injEq] at h
        exact h.1 ▸ (show JsonList.wf (.cons v .nil) from ⟨IHv _ _ _ heq, trivial⟩)
    · intro input ms rest h
      rw [pm_succ] at h
      split at h <;> try exact Option.noConfusion h
      split at h <;> try exact Option.noConfusion h
      rename_i k r1 heq1
      split at h <;> try exact Option.noConfusion h
      rename_i r2
      split at h <;> try exact Option.noConfusion h
      rename_i v r3 heqv
      split at h <;> try exact Option.noConfusion h
      rename_i d r4
      split at h
      · split at h <;> try exact Option.noConfusion h
        rename_i tl r5 heqm
        simp only [Option.some.injEq, Prod.mk.injEq] at h
        intro kv hkv
        rw [← h.1] at hkv
        rcases List.mem_cons.mp hkv with rfl | hkv'
        · exact IHv _ _ _ heqv
        · exact IHm _ _ _ heqm kv hkv'
      · split at h <;> try exact Option.noConfusion h
        simp only [Option.some.injEq, Prod.mk.injEq] at h
        intro kv hkv
        rw [← h.1] at hkv
        rcases List.mem_singleton.mp hkv with rfl
        exact IHv _ _ _ heqv

/-- `JSON.parse` never produces duplicate object keys or out-of-range
integers: its results are well-formed. -/
theorem parseJson_wf {s : String} {v : Json} (h : parseJson s = some v) :
    v.wf := by
  unfold parseJson at h
  cases hpv : parseValue (s.length + 1) (skipWs s.data) with
  | none => rw [hpv] at h; exact Option.noConfusion h
  | some p =>
    obtain ⟨v', rest⟩ := p
    rw [hpv] at h
    by_cases hr : skipWs rest = []
    · simp only [if_pos hr, Option.some.injEq] at h
      exact h ▸ (parse_wf _).1 _ _ _ hpv
    · simp only [if_neg hr] at h
      exact Option.noConfusion h

/-! ## Claim theorems. -/

/-- C1: for every operation processed by the code sample generator (every
method key of every path item except the literal key `parameters`), after
processing, `x-codeSamples` holds an array of exactly 8 `{lang, label,
source}` entries in the fixed order cURL, Node.js (javascript), Python, Go,
Ruby, PHP, Java, C#, and the superseded `x-code-samples` field is absent. -/
theorem C1_codeSamples_eight_fixed_order (spec : ApiSpec) (pt : String)
    (item : PathItem) (m : String) (op : Operation)
    (hitem : (pt, item) ∈ (processSpec spec).paths)
    (hop : (m, op) ∈ item.ops) :
    ∃ samples, op.xCodeSamples = some samples ∧ samples.length = 8 ∧
      samples.map Sample.lang =
        ["curl", "javascript", "python", "go", "ruby", "php", "java", "csharp"] ∧
      samples.map Sample.label =
        ["cURL", "Node.js", "Python", "Go", "Ruby", "PHP", "Java", "C#"] ∧
      op.xCodeSamplesLegacy = none := by
  simp only [processSpec, List.mem_map] at hitem
  obtain ⟨⟨pt0, item0⟩, hmem0, heq⟩ := hitem
  obtain ⟨heq1, heq2⟩ := Prod.mk.injEq .. ▸ heq
  subst heq1
  subst heq2
  simp only [processPathItem, List.mem_map] at hop
  obtain ⟨⟨m0, op0⟩, hmem1, heqo⟩ := hop
  obtain ⟨heq3, heq4⟩ := Prod.mk.injEq .. ▸ heqo
  subst heq3
  subst heq4
  exact ⟨generateCodeSamples m0 pt0 op0 (item0.parameters ++ op0.parameters),
    rfl, rfl, rfl, rfl, rfl⟩

/-- C1 witness: the concrete one-operation document, fully evaluated. -/
theorem C1_witness :
    ∃ samples,
      (processOperation "/widgets" [] "get" opGetAllWidgets).xCodeSamples
        = some samples ∧
      samples.length = 8 ∧
      samples.map Sample.lang =
        ["curl", "javascript", "python", "go", "ruby", "php", "java", "csharp"] ∧
      samples.map Sample.label =
        ["cURL", "Node.js", "Python", "Go", "Ruby", "PHP", "Java", "C#"] ∧
      (processOperation "/widgets" [] "get" opGetAllWidgets).xCodeSamplesLegacy
        = none :=
  C1_codeSamples_eight_fixed_order specWidgets "/widgets"
    (processPathItem "/widgets" itemWidgets) "get"
    (processOperation "/widgets" [] "get" opGetAllWidgets)
    (List.mem_singleton.mpr rfl) (List.mem_singleton.mpr rfl)

/-- C2: the drift checker reports in-sync (exit 0) whenever source and
target texts parse to the same JSON structure, and exits 1 whenever the
parsed structures differ. -/
theorem C2_drift_exit_iff (env : DriftEnv) (s t : String) (sj tj : Json)
    (hs : readSourceOrThrow env.src = .ok s) (ht : env.target = some t)
    (hps : parseJson s = some sj) (hpt : parseJson t = some tj) :
    (checkOpenApiDrift env = 0 ↔ sj = tj) ∧
    (checkOpenApiDrift env = 1 ↔ sj ≠ tj) := by
  have hns : normalizeJson s = some (serializeJson sj) := by
    simp [normalizeJson, hps]
  have hnt : normalizeJson t = some (serializeJson tj) := by
    simp [normalizeJson, hpt]
  simp only [checkOpenApiDrift, hs, ht, hns, hnt]
  by_cases heq : serializeJson sj = serializeJson tj
  · have hj : sj = tj := serializeJson_inj (parseJson_wf hps) (parseJson_wf hpt) heq
    simp [heq, hj]
  · have hne : sj ≠ tj := fun hc => heq (by rw [hc])
    simp [heq, hne]

/-- C2 witness: source and target that differ only in whitespace are
reported in sync. -/
theorem C2_witness : checkOpenApiDrift envDriftWit = 0 :=
  (C2_drift_exit_iff envDriftWit "\x7b \"a\": 1 \x7d" "\x7b\"a\":1\x7d"
    (Json.obj (.cons "a" (.num 1) .nil)) (Json.obj (.cons "a" (.num 1) .nil))
    rfl rfl rfl rfl).1.mpr rfl

/-- C3 counterexample: with a remote URL configured, a failed fetch makes
the source read fail even though the local source file exists — refuting
"if the local file exists, the source read succeeds". -/
theorem C3_counterexample :
    envSourceCex.localFile = some "\x7b\x7d" ∧
    readSourceSpec envSourceCex = .error "Failed to fetch OpenAPI spec" :=
  ⟨rfl, rfl⟩

/-- C3 amended: the source read succeeds iff either a remote URL is
configured and the fetch succeeds (global fetch available and response
ok), or no remote URL is configured and the local file exists.  There is
no fall-back from a failed remote fetch to the local file. -/
theorem C3_amended_source_resolution (env : SourceEnv) :
    (∃ s, readSourceSpec env = .ok s) ↔
      ((env.remoteUrl.isSome ∧ env.fetchAvailable = true ∧
        env.fetchResult.isSome) ∨
       (env.remoteUrl = none ∧ env.localFile.isSome)) := by
  obtain ⟨ru, fa, fr, lf⟩ := env
  cases ru <;> cases fa <;> cases fr <;> cases lf <;>
    simp [readSourceSpec]

/-- C4 counterexample: a source text that is not valid JSON is copied
nowhere and the run exits 1 even when the destination is byte-identical —
refuting "for any source text … reports success (exit code 0)". -/
theorem C4_counterexample :
    readSourceSpec envSyncCex.src = .ok "oops" ∧
    envSyncCex.target = some "oops" ∧
    syncOpenApiSpec envSyncCex = ⟨1, some "oops", false⟩ :=
  ⟨rfl, rfl, rfl⟩

/-- Helper: on a readable source that parses to a non-null document, the
syncer skips a byte-identical destination; otherwise it writes, and exits
0 unless the endpoint summary throws, in which case it exits 1 — after
the write. -/
theorem sync_step_notnull (env : SyncEnv) (s : String) (j : Json)
    (hs : readSourceSpec env.src = .ok s)
    (hp : parseJson s = some j) (hn : j ≠ Json.null) :
    syncOpenApiSpec env =
      (match env.target with
       | some t => if t = s then ⟨0, env.target, false⟩
         else ⟨if summaryThrows j then 1 else 0, some s, true⟩
       | none => ⟨if summaryThrows j then 1 else 0, some s, true⟩) := by
  simp only [syncOpenApiSpec, hs, hp]

/-- C4 amended: for any source text that parses as JSON to a non-null
document: a byte-identical destination means no write and exit 0 (this
path returns before the endpoint summary); rerunning the syncer against
the unchanged source always skips with exit 0 and no write; and the first
run also exits 0 provided the endpoint summary does not encounter a null
path item or null operation (otherwise it throws after the write and that
run exits 1). -/
theorem C4_amended_idempotence (env : SyncEnv) (s : String) (j : Json)
    (hs : readSourceSpec env.src = .ok s)
    (hp : parseJson s = some j) (hn : j ≠ Json.null) :
    (env.target = some s → syncOpenApiSpec env = ⟨0, env.target, false⟩) ∧
    (syncOpenApiSpec { env with target := (syncOpenApiSpec env).target } =
      ⟨0, (syncOpenApiSpec env).target, false⟩) ∧
    (summaryThrows j = false → (syncOpenApiSpec env).exitCode = 0) := by
  have hstep : ∀ tgt : Option String,
      syncOpenApiSpec { env with target := tgt } =
        if tgt = some s then ⟨0, tgt, false⟩
        else ⟨if summaryThrows j then 1 else 0, some s, true⟩ := by
    intro tgt
    have h1 := sync_step_notnull { env with target := tgt } s j hs hp hn
    rw [h1]
    cases tgt with
    | none => simp
    | some t =>
      by_cases hts : t = s
      · subst hts; simp
      · simp [hts]
  have h0 : syncOpenApiSpec env =
      if env.target = some s then ⟨0, env.target, false⟩
      else ⟨if summaryThrows j then 1 else 0, some s, true⟩ := hstep env.target
  have h2 : (syncOpenApiSpec env).target = some s := by
    rw [h0]
    by_cases ht : env.target = some s
    · rw [if_pos ht]; exact ht
    · rw [if_neg ht]
  refine ⟨?_, ?_, ?_⟩
  · intro ht
    rw [h0, if_pos ht]
  · rw [h2, hstep (some s), if_pos rfl]
  · intro hth
    rw [h0]
    by_cases ht : env.target = some s
    · rw [if_pos ht]
    · rw [if_neg ht, hth]
      rfl

/-- C4 witness: a byte-identical destination is skipped with exit 0. -/
theorem C4_witness :
    syncOpenApiSpec envSyncWit = ⟨0, envSyncWit.target, false⟩ :=
  (C4_amended_idempotence envSyncWit "\x7b\"paths\": \x7b\x7d\x7d"
    (Json.obj (.cons "paths" (.obj .nil) .nil)) rfl rfl
    (fun h => Json.noConfusion h)).1 rfl

/-- C5 counterexample: an object schema with five required properties, all
declared under `properties`, synthesizes an example with only the first
four keys — the fifth required property is missing, refuting "contains all
of the schema's required properties". -/
theorem C5_counterexample :
    ("r5" ∈ schemaFiveRequired.required.getD []) ∧
    (∀ r ∈ schemaFiveRequired.required.getD [],
      (propsLookup (schemaFiveRequired.properties.getD []) r).isSome) ∧
    (generateExampleFromSchema schemaFiveRequired).keys = ["r1", "r2", "r3", "r4"] ∧
    ¬ ("r5" ∈ (generateExampleFromSchema schemaFiveRequired).keys) := by
  exact ⟨by decide, by decide, rfl, by decide⟩

/-- Helper: the object branch of `generateExampleFromSchema`, unfolded. -/
theorem genExample_obj_unfold (fuel : Nat) (s : Schema)
    (hex : s.exampleV = none)
    (hobj : s.type = some "object" ∨ s.properties.isSome) :
    genExampleFuel (fuel + 1) s =
      .obj (((((s.required.getD []) ++
        ((((s.properties.getD []).map Prod.fst).filter
          (fun k => !(s.required.getD []).contains k)).take 2)).take 4)).foldl
        (fun o k =>
          match propsLookup (s.properties.getD []) k with
          | some sub => o.insert k (genExampleFuel fuel sub)
          | none => o) .nil) := by
  have hcond : (s.type == some "object" || s.properties.isSome) = true := by
    rcases hobj with h | h
    · simp [h]
    · simp [h]
  simp only [genExampleFuel, hex, exampleIfTruthy, hcond, if_true]

/-- C5 amended: for an object schema with no explicit example whose
required names are all declared and at most 4, the synthesized example
contains every required property, has at most 4 keys in total of which at
most 2 are optional (non-required) properties; at depth beyond the cap the
synthesizer returns the empty object; and the spec's concrete scenario
yields `name` plus the first two optional properties. -/
theorem C5_amended_example_body (s : Schema) (fuel : Nat)
    (hex : s.exampleV = none)
    (hobj : s.type = some "object" ∨ s.properties.isSome)
    (hlen : (s.required.getD []).length ≤ 4)
    (hdecl : ∀ r ∈ s.required.getD [],
      (propsLookup (s.properties.getD []) r).isSome) :
    (∀ r ∈ s.required.getD [], r ∈ (genExampleFuel (fuel + 1) s).keys) ∧
    (genExampleFuel (fuel + 1) s).keys.length ≤ 4 ∧
    ((genExampleFuel (fuel + 1) s).keys.filter
      (fun k => !(s.required.getD []).contains k)).length ≤ 2 ∧
    genExampleFuel 0 s = Json.obj .nil ∧
    generateExampleFromSchema schemaBodyScenario =
      Json.obj (.cons "name" (.str "example") (.cons "color" (.str "example")
        (.cons "size" (.str "example") .nil))) := by
  have hval := genExample_obj_unfold fuel s hex hobj
  have htake : ((s.required.getD []) ++
      ((((s.properties.getD []).map Prod.fst).filter
        (fun k => !(s.required.getD []).contains k)).take 2)).take 4 =
      (s.required.getD []) ++
        ((((s.properties.getD []).map Prod.fst).filter
          (fun k => !(s.required.getD []).contains k)).take 2).take
            (4 - (s.required.getD []).length) := by
    rw [List.take_append_eq_append_take, List.take_of_length_le hlen]
  have hkeys : (genExampleFuel (fuel + 1) s).keys =
      (((((s.required.getD []) ++
        ((((s.properties.getD []).map Prod.fst).filter
          (fun k => !(s.required.getD []).contains k)).take 2)).take 4)).foldl
        (fun o k =>
          match propsLookup (s.properties.getD []) k with
          | some sub => o.insert k (genExampleFuel fuel sub)
          | none => o) JsonObj.nil).keys := by
    rw [hval]
    rfl
  refine ⟨?_, ?_, ?_, rfl, rfl⟩
  · intro r hr
    rw [hkeys]
    apply fold_keys_mem
    right
    refine ⟨?_, hdecl r hr⟩
    rw [htake]
    exact List.mem_append_left _ hr
  · rw [hkeys]
    refine le_trans (fold_keys_length _ _ _ _) ?_
    have h4 := List.length_take_le 4 ((s.required.getD []) ++
      ((((s.properties.getD []).map Prod.fst).filter
        (fun k => !(s.required.getD []).contains k)).take 2))
    simp only [JsonObj.keys, List.length_nil]
    omega
  · rw [hkeys]
    have hnod : (((((s.required.getD []) ++
        ((((s.properties.getD []).map Prod.fst).filter
          (fun k => !(s.required.getD []).contains k)).take 2)).take 4)).foldl
        (fun o k =>
          match propsLookup (s.properties.getD []) k with
          | some sub => o.insert k (genExampleFuel fuel sub)
          | none => o) JsonObj.nil).keys.Nodup :=
      fold_keys_nodup _ _ _ _ (by simp [JsonObj.keys])
    have hsubF : ∀ x ∈ (((((s.required.getD []) ++
        ((((s.properties.getD []).map Prod.fst).filter
          (fun k => !(s.required.getD []).contains k)).take 2)).take 4)).foldl
        (fun o k =>
          match propsLookup (s.properties.getD []) k with
          | some sub => o.insert k (genExampleFuel fuel sub)
          | none => o) JsonObj.nil).keys.filter
          (fun k => !(s.required.getD []).contains k),
        x ∈ (((s.properties.getD []).map Prod.fst).filter
          (fun k => !(s.required.getD []).contains k)).take 2 := by
      intro x hx
      obtain ⟨hxk, hxp⟩ := List.mem_filter.mp hx
      have hxnotreq : ¬ x ∈ s.required.getD [] := by
        intro hmem
        have hc : (s.required.getD []).contains x = true :=
          List.elem_eq_true_of_mem hmem
        rw [hc] at hxp
        simp at hxp
      rcases fold_keys_sub _ _ _ _ _ hxk with h1 | h1
      · simp [JsonObj.keys] at h1
      · rw [htake] at h1
        rcases List.mem_append.mp h1 with h2 | h2
        · exact absurd h2 hxnotreq
        · exact List.take_subset _ _ h2
    have hsp := (List.Nodup.filter _ hnod).subperm hsubF
    refine le_trans hsp.length_le ?_
    exact List.length_take_le _ _

/-- C5 witness: the scenario schema instantiates the amended claim — its
required property `name` appears in the synthesized example. -/
theorem C5_witness :
    "name" ∈ (genExampleFuel 4 schemaBodyScenario).keys :=
  (C5_amended_example_body schemaBodyScenario 3 rfl (.inl rfl)
    (by decide) (by decide)).1 "name" (by decide)

/-- C6 counterexample: the parameter named `userId` does not yield the
generic placeholder `"example"` — its lower-cased name contains the
substring `id`, so the canned id value is returned. -/
theorem C6_counterexample :
    getExampleValue paramUserId = Json.str "example-uuid-123" ∧
    Json.str "example-uuid-123" ≠ Json.str "example" := by
  refine ⟨rfl, ?_⟩
  intro h
  injection h with h'
  exact absurd h' (by decide)

/-- C6 amended: a path parameter named `userId` with no example and no
schema type yields the canned id value `"example-uuid-123"` (its name
contains the substring `id`); `tableName` yields `"my_table"`; an
integer-typed parameter with no example yields `"1"`. -/
theorem C6_amended_example_heuristics :
    getExampleValue paramUserId = Json.str "example-uuid-123" ∧
    getExampleValue paramTableName = Json.str "my_table" ∧
    getExampleValue paramLimitPath = Json.str "1" :=
  ⟨rfl, rfl, rfl⟩

/-- C7: the query string is only appended when the method string is
exactly the upper-case `'GET'`.  OpenAPI path items key their operations
with lower-case method names, so for the operation under the `get` key
with a query parameter the generated cURL sample carries no query string,
while the same operation under an upper-case `GET` key would carry
`?limit=1`; `generateQueryString` itself renders the first query
parameters as URL-encoded pairs. -/
theorem C7_query_string_case_bug :
    generateCurlSample "get" "/widgets" opListWidgets [paramLimitQuery] =
      "curl -X GET 'https://api.widgetic.com/v1/widgets' \\\n  -H 'Authorization: Bearer YOUR_API_KEY'" ∧
    generateCurlSample "GET" "/widgets" opListWidgets [paramLimitQuery] =
      "curl -X GET 'https://api.widgetic.com/v1/widgets?limit=1' \\\n  -H 'Authorization: Bearer YOUR_API_KEY'" ∧
    generateQueryString [paramLimitQuery] = "?limit=1" :=
  ⟨rfl, rfl, rfl⟩

/-- C8: an operation with operationId `getAllWidgets` and first tag
`Widgets` derives Python method name `get_all_widgets`, Go method name
`GetAllWidgets`, API class name `WidgetsApi`, and the Node/TypeScript
sample imports the class `WidgetsApi`. -/
theorem C8_method_and_class_names :
    getMethodName "getAllWidgets" "python" = "get_all_widgets" ∧
    getMethodName "getAllWidgets" "go" = "GetAllWidgets" ∧
    getApiClassName "getAllWidgets" "Widgets" = "WidgetsApi" ∧
    strStartsWith
      (generateTypeScriptSample "get" "/widgets" opGetAllWidgets [] "Widgets")
      "import \x7b WidgetsApi \x7d from '@widgetic/api-sdk';" = true :=
  ⟨rfl, rfl, rfl, rfl⟩

/-- C9: link resolution tries, in order, the literal path and exactly four
variants (`.mdx`, `.md`, `/index.mdx`, `/index.md`); a link is broken only
when no candidate exists; the relative-link scenario from `docs/intro.mdx`
produces exactly one broken-link entry when no candidate exists. -/
theorem C9_link_resolution (fs : String → Bool) (link fromFile : String) :
    (resolveInternalLink fs link fromFile = none ↔
      (linkBase link = "" ∨ ∀ c ∈ linkCandidates link fromFile, fs c = false)) ∧
    (∀ p, resolveInternalLink fs link fromFile = some p →
      p ∈ linkCandidates link fromFile ∧ fs p = true) ∧
    linkCandidates "../guides/setup" "docs/intro.mdx" =
      ["guides/setup", "guides/setup.mdx", "guides/setup.md",
       "guides/setup/index.mdx", "guides/setup/index.md"] ∧
    validateLinksOn (fun _ => false) [("docs/intro.mdx", ["../guides/setup"])] =
      [⟨"docs/intro.mdx", "../guides/setup", "Link target not found"⟩] := by
  refine ⟨?_, ?_, rfl, rfl⟩
  · unfold resolveInternalLink
    by_cases hb : linkBase link = ""
    · simp [hb]
    · rw [if_neg hb]
      simp [hb, List.find?_eq_none]
  · intro p hp
    unfold resolveInternalLink at hp
    by_cases hb : linkBase link = ""
    · rw [if_pos hb] at hp
      exact absurd hp (by simp)
    · rw [if_neg hb] at hp
      exact ⟨List.mem_of_find?_eq_some hp, List.find?_some hp⟩

/-- C9 witness: on a filesystem where only `guides/setup.md` exists, the
scenario link resolves to it, so it is an existing candidate. -/
theorem C9_witness :
    "guides/setup.md" ∈ linkCandidates "../guides/setup" "docs/intro.mdx" ∧
    fsSetupMd "guides/setup.md" = true :=
  (C9_link_resolution fsSetupMd "../guides/setup" "docs/intro.mdx").2.1
    "guides/setup.md" rfl

/-- C10: a declared example (on the parameter or its schema) is honoured
only when truthy — when every declared example is a falsy JSON value, the
result is exactly what the parameter with its examples removed yields (the
name-substring/schema-type default); in particular a declared example `0`
on an integer parameter yields the default `"1"`. -/
theorem C10_falsy_declared_examples_ignored (p : Param)
    (h1 : ∀ e, p.exampleV = some e → e.truthy = false)
    (h2 : ∀ s e, p.schema = some s → s.exampleV = some e → e.truthy = false) :
    getExampleValue p = getExampleValue p.clearExamples ∧
    getExampleValue paramZeroExample = Json.str "1" := by
  have he1 : exampleIfTruthy p.exampleV = none := by
    cases hpe : p.exampleV with
    | none => rfl
    | some e => simp [exampleIfTruthy, h1 e hpe]
  have he2 : exampleIfTruthy (p.schema.bind Schema.exampleV) = none := by
    cases hps : p.schema with
    | none => rfl
    | some sc =>
      cases hse : sc.exampleV with
      | none => simp [exampleIfTruthy, hse]
      | some e => simp [exampleIfTruthy, hse, h2 sc e hps hse]
  have he1' : exampleIfTruthy p.clearExamples.exampleV = none := rfl
  have he2' : exampleIfTruthy (p.clearExamples.schema.bind Schema.exampleV) = none := by
    rw [show p.clearExamples.schema = p.schema.map Schema.clearExample from rfl]
    cases hps : p.schema with
    | none => rfl
    | some sc => cases sc; rfl
  have htype : p.clearExamples.schema.bind Schema.type = p.schema.bind Schema.type := by
    rw [show p.clearExamples.schema = p.schema.map Schema.clearExample from rfl]
    cases p.schema with
    | none => rfl
    | some sc => cases sc; rfl
  have hname : p.clearExamples.name = p.name := rfl
  refine ⟨?_, rfl⟩
  simp only [getExampleValue, he1, he2, he1', he2', htype, hname]

/-- C10 witness: the falsy declared example `0` is ignored. -/
theorem C10_witness :
    getExampleValue paramZeroExample =
      getExampleValue paramZeroExample.clearExamples :=
  (C10_falsy_declared_examples_ignored paramZeroExample
    (fun e he => by
      have he' : some (Json.num 0) = some e := he
      injection he' with h
      subst h
      rfl)
    (fun s e hs hse => by
      have hs' : some integerSchema = some s := hs
      injection hs' with h
      subst h
      exact Option.noConfusion hse)).1

end WidgeticDocs
